import Mathlib

/-!
Verification development for the grist-core document data core.

The definitions below are a shallow embedding of:
  - the columnar in-memory table store `TableData` (src/unnamed/part_001),
  - the transactional SQLite wrapper `SQLiteDB` (src/app/server/lib/SQLiteDB.ts).
JavaScript arrays are modelled as Lean lists; out-of-range reads produce the
explicit value `CellValue.undef` (the JS `undefined`), and writes one past the
end extend the array, as JS assignment does.  JS `Map` objects are modelled as
association lists whose `set` updates in place for an existing key and appends
for a new one, matching Map insertion-order semantics.  Promises are modelled
by an explicit state machine; each promise is named by a numeric identity.
-/

set_option maxRecDepth 8000

/-- A cell value.  Grist cell values are dynamically typed; the claims checked
here only need a representative closed universe with decidable equality, which
models the strict equality used by the source on primitive values.  `undef`
represents the JS `undefined` produced by out-of-range array reads. -/
inductive CellValue where
  | num : Int → CellValue
  | str : String → CellValue
  | bool : Bool → CellValue
  | null : CellValue
  | undef : CellValue
deriving DecidableEq, Repr

/-- `ColValues` of DocActions: a JS object mapping column ids to single cell
values.  Keys are unique in a JS object; lookup returns the first match. -/
abbrev ColValues := List (String × CellValue)

/-- `BulkColValues` of DocActions: a JS object mapping column ids to parallel
arrays of cell values. -/
abbrev BulkColValues := List (String × List CellValue)

/-- `colValues.hasOwnProperty(colId) ? colValues[colId] : ...` combined:
`some` exactly when the key is present. -/
def colLookup (cvs : ColValues) (cid : String) : Option CellValue :=
  (cvs.find? (fun p => p.1 == cid)).map (fun p => p.2)

/-- Key lookup in a `BulkColValues` object. -/
def bulkLookup (cvs : BulkColValues) (cid : String) : Option (List CellValue) :=
  (cvs.find? (fun p => p.1 == cid)).map (fun p => p.2)

/-- JS array read `l[i]`, with `d` standing for the `undefined` produced by an
out-of-range read. -/
def getN {α : Type} (d : α) : List α → Nat → α
  | [], _ => d
  | a :: _, 0 => a
  | _ :: l, n + 1 => getN d l n

/-- In-bounds list update (the `i < length` case of a JS array write). -/
def setN {α : Type} : List α → Nat → α → List α
  | [], _, _ => []
  | _ :: l, 0, v => v :: l
  | a :: l, n + 1, v => a :: setN l n v

/-- JS array write `l[i] = v`: updates in place when `i < length`, extends the
array (padding any gap with `undefined`, i.e. `d`) otherwise.  Every write in
the embedded code happens at `i ≤ length`, so the padding is always empty. -/
def jsSetD {α : Type} (d : α) (l : List α) (i : Nat) (v : α) : List α :=
  if i < l.length then setN l i v
  else l ++ List.replicate (i - l.length) d ++ [v]

/-- JS `Map.get` on a numeric-keyed map: first entry with the key, if any. -/
def mapGet (m : List (Nat × Nat)) (k : Nat) : Option Nat :=
  (m.find? (fun p => p.1 == k)).map (fun p => p.2)

/-- JS `Map.set`: update the value in place when the key is present (keeping
insertion order), append a new entry otherwise. -/
def mapSet (m : List (Nat × Nat)) (k v : Nat) : List (Nat × Nat) :=
  if m.any (fun p => p.1 == k) then
    m.map (fun p => if p.1 == k then (k, v) else p)
  else m ++ [(k, v)]

/-- JS `Map.delete`. -/
def mapDelete (m : List (Nat × Nat)) (k : Nat) : List (Nat × Nat) :=
  m.filter (fun p => p.1 != k)

/-- First index holding `k`, used to state lemmas about row-id arrays. -/
def natIdx? (l : List Nat) (k : Nat) : Option Nat :=
  l.findIdx? (fun x => x == k)

/-- Modelled from the spec: `getDefaultForType` (app/common/gristTypes is not
under src/) computes a type-appropriate default value from a column type tag.
The claims below never depend on the particular mapping, only on it being a
fixed function of the type. -/
def getDefaultForType (ty : String) : CellValue :=
  if ty == "Numeric" || ty == "Int" || ty == "Id" then CellValue.num 0
  else if ty == "Bool" then CellValue.bool false
  else if ty == "Text" || ty == "Choice" then CellValue.str ""
  else CellValue.null

/-- `ColInfo` payload of column schema actions (DocActions): the declared
column type. -/
structure ColInfo where
  type : String
deriving DecidableEq, Repr

/-- `ColInfoWithId` payload of AddTable. -/
structure ColInfoWithId where
  id : String
  type : String
deriving DecidableEq, Repr

/-- The closed DocAction vocabulary (DocActions.ts), with the payload slots the
TableData handlers consume.  Row ids are the JS numbers carried by actions. -/
inductive DocAction where
  | AddRecord (tableId : String) (rowId : Nat) (colValues : ColValues)
  | BulkAddRecord (tableId : String) (rowIds : List Nat) (colValues : BulkColValues)
  | RemoveRecord (tableId : String) (rowId : Nat)
  | BulkRemoveRecord (tableId : String) (rowIds : List Nat)
  | UpdateRecord (tableId : String) (rowId : Nat) (colValues : ColValues)
  | BulkUpdateRecord (tableId : String) (rowIds : List Nat) (colValues : BulkColValues)
  | ReplaceTableData (tableId : String) (rowIds : List Nat) (colValues : BulkColValues)
  | AddColumn (tableId : String) (colId : String) (colInfo : ColInfo)
  | RemoveColumn (tableId : String) (colId : String)
  | RenameColumn (tableId : String) (oldColId : String) (newColId : String)
  | ModifyColumn (tableId : String) (oldColId : String) (colInfo : ColInfo)
  | AddTable (tableId : String) (columns : List ColInfoWithId)
  | RemoveTable (tableId : String)
  | RenameTable (oldTableId : String) (newTableId : String)
deriving DecidableEq, Repr

/-- Modelled from the spec: `isSchemaAction` (DocActions.ts is not under src/).
Spec 4.2: the schema-defining actions are add/remove/rename/retype column or
table; row-data actions (including ReplaceTableData) are not schema actions. -/
def isSchemaAction : DocAction → Bool
  | .AddColumn _ _ _ => true
  | .RemoveColumn _ _ => true
  | .RenameColumn _ _ _ => true
  | .ModifyColumn _ _ _ => true
  | .AddTable _ _ => true
  | .RemoveTable _ => true
  | .RenameTable _ _ => true
  | _ => false

/-- One column of a table: id, declared type, the default computed from the
type, and the dense array of values (one per resident row). -/
structure ColData where
  colId : String
  type : String
  defl : CellValue
  values : List CellValue
deriving DecidableEq, Repr

/-- The `TableDataAction` tuple (tag, tableId, rowIds, colValues); the
`ReplaceTableData` payload has the same shape in the slots `loadData` reads. -/
structure TableDataAction where
  tableId : String
  rowIds : List Nat
  colValues : BulkColValues
deriving DecidableEq, Repr

/-- State of one `TableData` instance.  `colArray` is the ordered list of
declared columns (the `_colArray` of the source, which omits the synthetic
`id` column); `rowIdCol` is the `id` column (`_rowIdCol`); `rowMap` maps row
id to storage position (`_rowMap`).  In the source, `_columns` additionally
stores a synthetic `id` entry aliasing `_rowIdCol`; lookups reconstruct that
view in `TableData.columnsGet`. -/
structure TableData where
  tableId : String
  isLoaded : Bool
  colArray : List ColData
  rowIdCol : List Nat
  rowMap : List (Nat × Nat)
deriving DecidableEq, Repr

/-- A materialized row record: the row id plus one field per declared column,
in column order. -/
structure RowRecord where
  id : Nat
  fields : List (String × CellValue)
deriving DecidableEq, Repr

/-- `_rowMap` rebuilt from scratch as in `loadData`:
`for i: rowMap.set(rowIds[i], i)` on a cleared map. -/
def buildRowMap (rowIds : List Nat) : List (Nat × Nat) :=
  (List.range rowIds.length).foldl (fun m i => mapSet m (getN 0 rowIds i) i) []

/-- `_columns.get(colId)`.  The synthetic `id` entry is reconstructed as a
view over `rowIdCol`; every other key is served from `colArray`.  The model
assumes no declared column is itself named `id` (the id key is reserved for
the synthetic column; a declared `id` column would be shadowed in the source
map as well). -/
def TableData.columnsGet (t : TableData) (colId : String) : Option ColData :=
  if colId == "id" then
    some { colId := "id", type := "Id", defl := CellValue.num 0,
           values := t.rowIdCol.map (fun r => CellValue.num (Int.ofNat r)) }
  else t.colArray.find? (fun c => c.colId == colId)

/-- `_columns.has(colId)`: the declared columns plus the synthetic `id`. -/
def TableData.columnsHas (t : TableData) (colId : String) : Bool :=
  colId == "id" || t.colArray.any (fun c => c.colId == colId)

/-- `loadData`: wholesale replacement of rows and of every declared column;
columns missing from the snapshot get their default repeated once per row;
the row-id index is rebuilt from scratch; the table is marked loaded; the
previously resident row ids are returned. -/
def TableData.loadData (t : TableData) (a : TableDataAction) : TableData × List Nat :=
  let rowIds := a.rowIds
  let oldRowIds := t.rowIdCol
  let colArray := t.colArray.map (fun c =>
    { c with values :=
        match bulkLookup a.colValues c.colId with
        | some vs => vs
        | none => rowIds.map (fun _ => c.defl) })
  ({ t with rowIdCol := rowIds, colArray := colArray,
            rowMap := buildRowMap rowIds, isLoaded := true },
   oldRowIds)

/-- The `TableData` constructor: columns start with empty value arrays, the
table is unloaded, and an optional initial snapshot is loaded immediately. -/
def TableData.create (tableId : String) (colTypes : List (String × String))
    (tableData : Option TableDataAction) : TableData :=
  let base : TableData :=
    { tableId := tableId, isLoaded := false,
      colArray := colTypes.map (fun p =>
        { colId := p.1, type := p.2, defl := getDefaultForType p.2, values := [] }),
      rowIdCol := [], rowMap := [] }
  match tableData with
  | some a => (base.loadData a).1
  | none => base

/-- `numRecords()`. -/
def TableData.numRecords (t : TableData) : Nat := t.rowIdCol.length

/-- `getRowIds()`: the resident row ids in storage order. -/
def TableData.getRowIds (t : TableData) : List Nat := t.rowIdCol

/-- Insertion of one element into an ascending list (helper for the numeric
sort of `getSortedRowIds`). -/
def insertAsc (x : Nat) : List Nat → List Nat
  | [] => [x]
  | y :: ys => if x ≤ y then x :: y :: ys else y :: insertAsc x ys

/-- Ascending numeric sort, the semantics of `slice(0).sort((a, b) => a - b)`. -/
def sortAsc (l : List Nat) : List Nat := l.foldr insertAsc []

/-- `getSortedRowIds()`. -/
def TableData.getSortedRowIds (t : TableData) : List Nat := sortAsc t.rowIdCol

/-- `getColIds()`: the declared column ids plus `id`.  (Source: the insertion
order of `_columns`; identical under the reserved-id assumption of
`TableData.columnsGet`.) -/
def TableData.getColIds (t : TableData) : List String :=
  t.colArray.map (fun c => c.colId) ++ ["id"]

/-- `getValue(rowId, colId)`: `undefined` (here `none`) when either the column
or the row is absent. -/
def TableData.getValue (t : TableData) (rowId : Nat) (colId : String) :
    Option CellValue :=
  match t.columnsGet colId, mapGet t.rowMap rowId with
  | some colData, some index => some (getN CellValue.undef colData.values index)
  | _, _ => none

/-- `getColValues(colId)`. -/
def TableData.getColValues (t : TableData) (colId : String) :
    Option (List CellValue) :=
  (t.columnsGet colId).map (fun c => c.values)

/-- `getRecord(rowId)`. -/
def TableData.getRecord (t : TableData) (rowId : Nat) : Option RowRecord :=
  match mapGet t.rowMap rowId with
  | none => none
  | some index =>
    some { id := getN 0 t.rowIdCol index,
           fields := t.colArray.map (fun c =>
             (c.colId, getN CellValue.undef c.values index)) }

/-- `getTableDataAction()`: rowIds carried separately, value map over the
column ids with `id` filtered out. -/
def TableData.getTableDataAction (t : TableData) : TableDataAction :=
  { tableId := t.tableId,
    rowIds := t.rowIdCol,
    colValues := ((t.getColIds).filter (fun cid => cid != "id")).map
      (fun cid => (cid, (t.getColValues cid).getD [])) }

/-- `findRow(colId, colValue)`: 0 when the column is absent or the value does
not occur; otherwise the row id at the first storage position holding the
value. -/
def TableData.findRow (t : TableData) (colId : String) (colValue : CellValue) :
    Nat :=
  match t.columnsGet colId with
  | none => 0
  | some colData =>
    match colData.values.findIdx? (fun v => v == colValue) with
    | none => 0
    | some index => getN 0 t.rowIdCol index

/-- One row check of `filterRecords`: for each properties entry in order, the
source reads `p[1].values[i]`; when the column lookup produced `undefined`
this throws a TypeError (modelled as `Except.error ()`), and otherwise a value
mismatch stops the row early with a non-match. -/
def rowMatches (props : List (CellValue × Option ColData)) (i : Nat) :
    Except Unit Bool :=
  match props with
  | [] => .ok true
  | (_, none) :: _ => .error ()
  | (v, some cd) :: rest =>
    if getN CellValue.undef cd.values i == v then rowMatches rest i
    else .ok false

/-- `filterRecords(properties)`: conjunction of all supplied column/value
pairs, scanning rows in storage order; a TypeError raised while scanning is
the `Except.error` outcome. -/
def TableData.filterRecords (t : TableData)
    (properties : List (String × CellValue)) : Except Unit (List RowRecord) := do
  let props := properties.map (fun p => (p.2, t.columnsGet p.1))
  let rowIndices ← (List.range t.rowIdCol.length).foldlM
    (fun acc i => do
      let m ← rowMatches props i
      pure (if m then acc ++ [i] else acc))
    ([] : List Nat)
  pure (rowIndices.map (fun i =>
    { id := getN 0 t.rowIdCol i,
      fields := t.colArray.map (fun c =>
        (c.colId, getN CellValue.undef c.values i)) }))

/-- `onAddRecord`: append the row at position `length` and extend every
declared column with the supplied value or the column default. -/
def TableData.onAddRecord (t : TableData) (rowId : Nat) (colValues : ColValues) :
    TableData :=
  let index := t.rowIdCol.length
  { t with
    rowMap := mapSet t.rowMap rowId index,
    rowIdCol := jsSetD 0 t.rowIdCol index rowId,
    colArray := t.colArray.map (fun c =>
      { c with values := (jsSetD CellValue.undef c.values index
          (match colLookup colValues c.colId with
           | some v => v
           | none => c.defl)) }) }

/-- `onBulkAddRecord`: append the rows at positions `length + i`, vectorized
index-for-index; a missing column key falls back to the default, and a short
value array reads as `undefined` exactly as in JS. -/
def TableData.onBulkAddRecord (t : TableData) (rowIds : List Nat)
    (colValues : BulkColValues) : TableData :=
  let index := t.rowIdCol.length
  { t with
    rowMap := (List.range rowIds.length).foldl
      (fun m i => mapSet m (getN 0 rowIds i) (index + i)) t.rowMap,
    rowIdCol := (List.range rowIds.length).foldl
      (fun l i => jsSetD 0 l (index + i) (getN 0 rowIds i)) t.rowIdCol,
    colArray := t.colArray.map (fun c =>
      { c with values := ((List.range rowIds.length).foldl
          (fun vs i => jsSetD CellValue.undef vs (index + i)
            (match bulkLookup colValues c.colId with
             | some arr => getN CellValue.undef arr i
             | none => c.defl))
          c.values) }) }

/-- `values[index] = values[last]; values.pop()` of `onRemoveRecord`, for one
array. -/
def popMove {α : Type} (d : α) (l : List α) (index : Nat) : List α :=
  (jsSetD d l index (getN d l (l.length - 1))).dropLast

/-- `onRemoveRecord`: keep the arrays dense by moving the last element into
the freed slot; re-point the moved row id in the index, then drop the removed
id.  When the removed row occupied the last position, the source performs
`rowMap.set(undefined, index)` (the read past the shortened array): that junk
entry is keyed by `undefined` and is unobservable by any numeric lookup, so it
is omitted from the model. -/
def TableData.onRemoveRecord (t : TableData) (rowId : Nat) : TableData :=
  match mapGet t.rowMap rowId with
  | none => t
  | some index =>
    let rowIdCol := popMove 0 t.rowIdCol index
    let colArray := t.colArray.map (fun c =>
      { c with values := popMove CellValue.undef c.values index })
    let rowMap :=
      if index < rowIdCol.length then
        mapSet t.rowMap (getN 0 rowIdCol index) index
      else t.rowMap
    { t with rowIdCol := rowIdCol, colArray := colArray,
             rowMap := mapDelete rowMap rowId }

/-- The number that lands in the row-id column when a cell value is written
through the synthetic `id` entry.  Grist row ids are nonnegative integers; a
write of a negative or non-numeric value leaves the array type-confused in
the source, which this Nat-typed column collapses to the id 0.  No theorem
below depends on that collapsed case: the amended C1 excludes id-keyed
update payloads, and the C1 counterexample uses a numeric write. -/
def cellToRowId : CellValue → Nat
  | .num n => n.toNat
  | _ => 0

/-- The inner loop shared by the update handlers: for each supplied key in
order, `_columns.get(colId)` and write the cell at `index`.  The `id` key
hits the synthetic entry whose values array IS `_rowIdCol` (the constructor
stores the same array object), so such a write goes through the alias
straight into the row-id column, leaving `_rowMap` untouched; any declared
column literally named `id` is shadowed by the synthetic entry and is not
written. -/
def TableData.updateRowCols (t : TableData) (index : Nat)
    (colValues : ColValues) : TableData :=
  colValues.foldl (fun acc p =>
    if p.1 == "id" then
      { acc with rowIdCol := jsSetD 0 acc.rowIdCol index (cellToRowId p.2) }
    else
      { acc with colArray := acc.colArray.map (fun c =>
          if c.colId == p.1 then
            { c with values := jsSetD CellValue.undef c.values index p.2 }
          else c) }) t

/-- `onUpdateRecord`: no-op for an absent row. -/
def TableData.onUpdateRecord (t : TableData) (rowId : Nat)
    (colValues : ColValues) : TableData :=
  match mapGet t.rowMap rowId with
  | none => t
  | some index => t.updateRowCols index colValues

/-- `onBulkUpdateRecord`: per row in order, the same per-key writes with the
i-th entry of each value array. -/
def TableData.onBulkUpdateRecord (t : TableData) (rowIds : List Nat)
    (colValues : BulkColValues) : TableData :=
  (List.range rowIds.length).foldl (fun acc i =>
    match mapGet acc.rowMap (getN 0 rowIds i) with
    | none => acc
    | some index =>
      acc.updateRowCols index
        (colValues.map (fun p => (p.1, getN CellValue.undef p.2 i))))
    t

/-- Modelled from the spec: `onBulkRemoveRecord` is not in the src/ excerpt
(only its callers are).  Spec 3/4.2: bulk variants are the vectorized form of
the singular operation, applied index-for-index. -/
def TableData.onBulkRemoveRecord (t : TableData) (rowIds : List Nat) :
    TableData :=
  rowIds.foldl (fun acc r => acc.onRemoveRecord r) t

/-- `onReplaceTableData`: delegates to `loadData`. -/
def TableData.onReplaceTableData (t : TableData) (tableId : String)
    (rowIds : List Nat) (colValues : BulkColValues) : TableData :=
  (t.loadData { tableId := tableId, rowIds := rowIds, colValues := colValues }).1

/-- `onAddColumn`: no-op when the id is taken, else append a column backfilled
with the type default. -/
def TableData.onAddColumn (t : TableData) (colId : String) (colInfo : ColInfo) :
    TableData :=
  if t.columnsHas colId then t
  else
    let defl := getDefaultForType colInfo.type
    { t with colArray := t.colArray ++
        [{ colId := colId, type := colInfo.type, defl := defl,
           values := t.rowIdCol.map (fun _ => defl) }] }

/-- `arrayRemove` (gutil): drop the first matching element. -/
def arrayRemoveFirst : List ColData → String → List ColData
  | [], _ => []
  | c :: cs, cid => if c.colId == cid then cs else c :: arrayRemoveFirst cs cid

/-- `onRemoveColumn`: no-op for an absent column; removing the reserved `id`
key would delete the synthetic entry, which the model (and no real action
stream) exercises. -/
def TableData.onRemoveColumn (t : TableData) (colId : String) : TableData :=
  match t.columnsGet colId with
  | none => t
  | some _ =>
    if colId == "id" then t
    else { t with colArray := arrayRemoveFirst t.colArray colId }

/-- `onRenameColumn`: re-key the column without touching stored values. -/
def TableData.onRenameColumn (t : TableData) (oldColId newColId : String) :
    TableData :=
  match t.columnsGet oldColId with
  | none => t
  | some _ =>
    if oldColId == "id" then t
    else { t with colArray := t.colArray.map (fun c =>
        if c.colId == oldColId then { c with colId := newColId } else c) }

/-- `onModifyColumn`: update only the type tag and the default used for future
additions. -/
def TableData.onModifyColumn (t : TableData) (oldColId : String)
    (colInfo : ColInfo) : TableData :=
  match t.columnsGet oldColId with
  | none => t
  | some _ =>
    if oldColId == "id" then t
    else { t with colArray := t.colArray.map (fun c =>
        if c.colId == oldColId then
          { c with type := colInfo.type, defl := getDefaultForType colInfo.type }
        else c) }

/-- `onRenameTable`. -/
def TableData.onRenameTable (t : TableData) (newTableId : String) : TableData :=
  { t with tableId := newTableId }

/-- `onAddTable`: a table processing its own addition is a noop. -/
def TableData.onAddTable (t : TableData) (_columns : List ColInfoWithId) :
    TableData := t

/-- `onRemoveTable`: stop dispatching by unloading. -/
def TableData.onRemoveTable (t : TableData) : TableData :=
  { t with isLoaded := false }

/-- Modelled from the spec: the `ActionDispatcher` routing contract (the base
class is not under src/).  Spec 4.1: determine the tag and invoke the
correspondingly named handler with the fields unpacked positionally; the
vocabulary is closed. -/
def TableData.dispatchAction (t : TableData) : DocAction → TableData
  | .AddRecord _ rowId colValues => t.onAddRecord rowId colValues
  | .BulkAddRecord _ rowIds colValues => t.onBulkAddRecord rowIds colValues
  | .RemoveRecord _ rowId => t.onRemoveRecord rowId
  | .BulkRemoveRecord _ rowIds => t.onBulkRemoveRecord rowIds
  | .UpdateRecord _ rowId colValues => t.onUpdateRecord rowId colValues
  | .BulkUpdateRecord _ rowIds colValues => t.onBulkUpdateRecord rowIds colValues
  | .ReplaceTableData tid rowIds colValues => t.onReplaceTableData tid rowIds colValues
  | .AddColumn _ colId colInfo => t.onAddColumn colId colInfo
  | .RemoveColumn _ colId => t.onRemoveColumn colId
  | .RenameColumn _ o n => t.onRenameColumn o n
  | .ModifyColumn _ o ci => t.onModifyColumn o ci
  | .AddTable _ cols => t.onAddTable cols
  | .RemoveTable _ => t.onRemoveTable
  | .RenameTable _ newId => t.onRenameTable newId

/-- `receiveAction`: apply only if loaded or a schema action; report whether
the action was applied. -/
def TableData.receiveAction (t : TableData) (a : DocAction) : TableData × Bool :=
  if t.isLoaded || isSchemaAction a then (t.dispatchAction a, true)
  else (t, false)

example :
    (TableData.create "T" [("A", "Numeric")] none).numRecords = 0 := by rfl

example :
    ((TableData.create "T" [("A", "Numeric")] none).loadData
      { tableId := "T", rowIds := [1, 2], colValues := [("A", [CellValue.num 5, CellValue.num 6])] }).1.getValue 2 "A"
    = some (CellValue.num 6) := by decide

/-- Status of a promise in the fetch model. -/
inductive PromiseState where
  | pending
  | resolved
  | rejected
deriving DecidableEq, Repr

/-- Promise-table lookup (promise identity to status). -/
def promGet (ps : List (Nat × PromiseState)) (p : Nat) : Option PromiseState :=
  (ps.find? (fun q => q.1 == p)).map (fun q => q.2)

/-- Promise-table update. -/
def promSet (ps : List (Nat × PromiseState)) (p : Nat) (s : PromiseState) :
    List (Nat × PromiseState) :=
  if ps.any (fun q => q.1 == p) then
    ps.map (fun q => if q.1 == p then (p, s) else q)
  else ps ++ [(p, s)]

/-- State machine for `fetchData`.  `fetchPromise` holds the identity of the
stored `_fetchPromise` (the chained promise `fetchFunc(tableId).then(...)`),
`promises` the status of every created promise, and `invocations` counts the
calls made to the supplied fetch function. -/
structure FetchModel where
  table : TableData
  fetchPromise : Option Nat
  promises : List (Nat × PromiseState)
  invocations : Nat
  nextId : Nat
deriving DecidableEq, Repr

/-- The fetch state of a freshly constructed table: nothing in flight. -/
def initFetch (t : TableData) : FetchModel :=
  { table := t, fetchPromise := none, promises := [], invocations := 0,
    nextId := 0 }

/-- One call to `fetchData(fetchFunc)`: if no fetch is stored, invoke the
fetch function and store the chained promise; always return the stored
promise. -/
def fetchDataModel (m : FetchModel) : FetchModel × Nat :=
  match m.fetchPromise with
  | some p => (m, p)
  | none =>
    let p := m.nextId
    ({ m with fetchPromise := some p,
              promises := promSet m.promises p PromiseState.pending,
              invocations := m.invocations + 1,
              nextId := m.nextId + 1 }, p)

/-- The in-flight fetch resolves with `data`: the `then` callback clears the
stored promise and calls `loadData`, after which the chained promise
resolves. -/
def fetchSuccess (m : FetchModel) (data : TableDataAction) : FetchModel :=
  match m.fetchPromise with
  | none => m
  | some p =>
    if promGet m.promises p == some PromiseState.pending then
      { m with fetchPromise := none,
               table := (m.table.loadData data).1,
               promises := promSet m.promises p PromiseState.resolved }
    else m

/-- The in-flight fetch rejects: the `then` callback never runs, so the stored
promise is not cleared; the chained promise rejects. -/
def fetchFailure (m : FetchModel) : FetchModel :=
  match m.fetchPromise with
  | none => m
  | some p =>
    if promGet m.promises p == some PromiseState.pending then
      { m with promises := promSet m.promises p PromiseState.rejected }
    else m

/-- Events a table's fetch machinery can experience. -/
inductive FetchEvent where
  | call
  | success (data : TableDataAction)
  | failure
deriving Repr

/-- Apply one fetch event. -/
def fetchStep (m : FetchModel) : FetchEvent → FetchModel
  | .call => (fetchDataModel m).1
  | .success data => fetchSuccess m data
  | .failure => fetchFailure m

/-- Apply a sequence of fetch events. -/
def fetchRun (m : FetchModel) (evs : List FetchEvent) : FetchModel :=
  evs.foldl fetchStep m

/-- Abstract state of one SQLite store: the `user_version` pragma, the set of
tables (`sqlite_master` entries), and abstract row content. -/
structure DBState where
  userVersion : Nat
  tables : List String
  content : List (String × String)
deriving DecidableEq, Repr

/-- A migration or create procedure: transforms the store, or throws. -/
abbrev DBFunc := DBState → Except String DBState

/-- `SchemaInfo`: the create procedure plus the ordered migration list, whose
length is the schema version. -/
structure SchemaInfo where
  create : DBFunc
  migrations : List DBFunc

/-- `OpenMode`. -/
inductive OpenMode where
  | OPEN_CREATE
  | OPEN_EXISTING
  | OPEN_READONLY
  | CREATE_EXCL
deriving DecidableEq, Repr

/-- One open handle: the connection's current store state, the transaction
flag, a trace of transaction-control statements issued, and the two
diagnostic fields set by `openDB`.  Backup files are named abstractly by
numbers (the dated naming pattern is not load-bearing for these claims; what
matters is that the name is fresh). -/
structure DBHandle where
  db : DBState
  inTransaction : Bool
  txLog : List String
  migrationBackupPath : Option Nat
  migrationError : Option String
deriving DecidableEq, Repr

/-- `execTransaction(callback)`: a nested call (flag already set) runs the
body inline with no transaction boundary; otherwise BEGIN, run the body with
the flag set, clear the flag (the `finally`), then COMMIT on success or
ROLLBACK on failure, restoring the pre-BEGIN store and re-raising the body's
original error.  (The `_prevTransaction` serialization queue and the deferred
VACUUM are concurrency machinery outside this model.) -/
def execTransactionModel {α : Type} (h : DBHandle)
    (body : DBHandle → DBHandle × Except String α) :
    DBHandle × Except String α :=
  if h.inTransaction then body h
  else
    let h1 := { h with txLog := h.txLog ++ ["BEGIN"], inTransaction := true }
    match body h1 with
    | (h2, .ok v) =>
      ({ h2 with inTransaction := false, txLog := h2.txLog ++ ["COMMIT"] },
       .ok v)
    | (h2, .error e) =>
      ({ h2 with inTransaction := false, db := h.db,
                 txLog := h2.txLog ++ ["ROLLBACK"] },
       .error e)

/-- Sequential application of migration procedures (the `for` loop inside the
migration transaction). -/
def applyMigrations : List DBFunc → DBState → Except String DBState
  | [], st => .ok st
  | m :: ms, st =>
    match m st with
    | .ok st1 => applyMigrations ms st1
    | .error e => .error e

/-- The body of the migration transaction: run every not-yet-applied migration
in ascending order, then stamp `user_version` to the target. -/
def migrationsBody (schema : SchemaInfo) (fromVer : Nat) (h : DBHandle) :
    DBHandle × Except String Unit :=
  match applyMigrations (schema.migrations.drop fromVer) h.db with
  | .ok st1 =>
    ({ h with db := { st1 with userVersion := schema.migrations.length } },
     .ok ())
  | .error e => (h, .error e)

/-- A backup file name not colliding with any existing file (the semantics of
`createNumberedTemplate` with `createExclusive`). -/
def freshName (fs : List Nat) : Nat := fs.foldr max 0 + 1

/-- The error message decoration applied by `_migrate` before rethrowing. -/
def migErrMsg (targetVer : Nat) (e : String) : String :=
  "migration to " ++ toString targetVer ++ " failed: " ++ e

/-- `_migrate(actualVer, schemaInfo)`: version ahead of target is a warning
only; version behind target copies the store to a fresh backup file, runs the
pending migrations in one transaction, and on failure deletes the just-made
backup and rethrows.  Returns the updated file set, handle and the backup
path (or the error). -/
def migrateModel (fs : List Nat) (h : DBHandle) (actualVer : Nat)
    (schema : SchemaInfo) : List Nat × DBHandle × Except String (Option Nat) :=
  let targetVer := schema.migrations.length
  if targetVer < actualVer then (fs, h, .ok none)
  else if actualVer < targetVer then
    let backupPath := freshName fs
    let fs1 := fs ++ [backupPath]
    match execTransactionModel h (migrationsBody schema actualVer) with
    | (h1, .ok _) => (fs1, h1, .ok (some backupPath))
    | (h1, .error e) => (fs1.erase backupPath, h1, .error (migErrMsg targetVer e))
  else (fs, h, .ok none)

/-- The body of `_initNewDB`: apply `create` then stamp the version, in one
transaction. -/
def initNewDBBody (schema : SchemaInfo) (h : DBHandle) :
    DBHandle × Except String Unit :=
  match schema.create h.db with
  | .ok st1 =>
    ({ h with db := { st1 with userVersion := schema.migrations.length } },
     .ok ())
  | .error e => (h, .error e)

/-- `openDB` on a store whose raw open succeeded, with `st` its on-disk state:
a version-0 empty store is initialized via `create`; otherwise CREATE_EXCL
fails with EEXISTS; read-only mode records a migration-needed error without
touching the store; read-write mode migrates, catching a migration failure
into the `migrationError` field and still returning an open handle.  (The
schema-discrepancy report is log-only and omitted.) -/
def openDBModel (fs : List Nat) (st : DBState) (schema : SchemaInfo)
    (mode : OpenMode) : List Nat × Except String DBHandle :=
  let h0 : DBHandle :=
    { db := st, inTransaction := false, txLog := [],
      migrationBackupPath := none, migrationError := none }
  if st.userVersion == 0 && st.tables.isEmpty then
    match execTransactionModel h0 (initNewDBBody schema) with
    | (h1, .ok _) => (fs, .ok h1)
    | (_, .error e) => (fs, .error e)
  else if mode == OpenMode.CREATE_EXCL then
    (fs, .error "EEXISTS")
  else if mode == OpenMode.OPEN_READONLY then
    (fs, .ok (if st.userVersion < schema.migrations.length then
      { h0 with migrationError := some "needs migration but is readonly" }
    else h0))
  else
    match migrateModel fs h0 st.userVersion schema with
    | (fs1, h1, .ok bp) => (fs1, .ok { h1 with migrationBackupPath := bp })
    | (fs1, h1, .error e) => (fs1, .ok { h1 with migrationError := some e })

/-- Programs run against a handle: a primitive statement, sequencing, or a
`runInTransaction` wrapper.  This is the shape of every caller of
`execTransaction` in the source. -/
inductive TxProg where
  | act (f : DBFunc)
  | seq (p q : TxProg)
  | tx (p : TxProg)

/-- Interpreter for transaction programs. -/
def runProg : TxProg → DBHandle → DBHandle × Except String Unit
  | .act f, h =>
    match f h.db with
    | .ok st => ({ h with db := st }, .ok ())
    | .error e => (h, .error e)
  | .seq p q, h =>
    match runProg p h with
    | (h1, .ok _) => runProg q h1
    | (h1, .error e) => (h1, .error e)
  | .tx p, h => execTransactionModel h (fun k => runProg p k)

/-- The handle state just after the outermost BEGIN. -/
def beginTx (h : DBHandle) : DBHandle :=
  { h with txLog := h.txLog ++ ["BEGIN"], inTransaction := true }

/-- The index-consistency invariant exactly as claimed: every storage position
maps back to itself through the index, every resident row id maps to a
position holding it, and every declared column is as long as the row count. -/
def indexInvariant (t : TableData) : Prop :=
  (∀ i, i < t.rowIdCol.length → mapGet t.rowMap (getN 0 t.rowIdCol i) = some i) ∧
  (∀ id, id ∈ t.rowIdCol →
    ∃ idx, mapGet t.rowMap id = some idx ∧ getN 0 t.rowIdCol idx = id) ∧
  (∀ c, c ∈ t.colArray → c.values.length = t.rowIdCol.length)

/-- Strengthened invariant closed under the row actions: additionally, the
index has no stale entries (every mapping points at a position holding its
key). -/
def WFTable (t : TableData) : Prop :=
  (∀ i, i < t.rowIdCol.length → mapGet t.rowMap (getN 0 t.rowIdCol i) = some i) ∧
  (∀ id idx, mapGet t.rowMap id = some idx →
    idx < t.rowIdCol.length ∧ getN 0 t.rowIdCol idx = id) ∧
  (∀ c, c ∈ t.colArray → c.values.length = t.rowIdCol.length)

/-- A well-formed full snapshot: distinct row ids and value arrays aligned
with the row count (spec 1: actions arrive already validated). -/
def ValidSnapshot (a : TableDataAction) : Prop :=
  a.rowIds.Nodup ∧ ∀ p, p ∈ a.colValues → p.2.length = a.rowIds.length

/-- A valid row action against the current state: additions use fresh row
ids, bulk additions moreover pairwise-distinct ones; removals are
unconstrained; update payloads carry no `id` key (the rowId slot travels
separately in the action, and an `id` key would write through the synthetic
entry aliasing the row-id column).  Only the five actions of the claim are
admitted. -/
def validStep (t : TableData) : DocAction → Prop
  | .AddRecord _ rowId _ => mapGet t.rowMap rowId = none
  | .BulkAddRecord _ rowIds _ =>
    rowIds.Nodup ∧ ∀ r, r ∈ rowIds → mapGet t.rowMap r = none
  | .RemoveRecord _ _ => True
  | .UpdateRecord _ _ cvs => ∀ p, p ∈ cvs → p.1 ≠ "id"
  | .BulkUpdateRecord _ _ cvs => ∀ p, p ∈ cvs → p.1 ≠ "id"
  | _ => False

/-- States reachable from a loaded table by valid row actions: the initial
load of a well-formed snapshot (over any prior state), then any sequence of
valid AddRecord, BulkAddRecord, RemoveRecord, UpdateRecord and
BulkUpdateRecord actions. -/
inductive ReachableValid : TableData → Prop where
  | load (t0 : TableData) (a : TableDataAction) (h : ValidSnapshot a) :
      ReachableValid (t0.loadData a).1
  | step (t : TableData) (a : DocAction) (ht : ReachableValid t)
      (ha : validStep t a) : ReachableValid (t.dispatchAction a)

theorem getN_append_left {α : Type} (d : α) (l l2 : List α) (i : Nat)
    (h : i < l.length) : getN d (l ++ l2) i = getN d l i := by
  induction l generalizing i with
  | nil => simp at h
  | cons a t ih =>
    cases i with
    | zero => rfl
    | succ j => exact ih j (by simpa using h)

theorem getN_append_right {α : Type} (d : α) (l l2 : List α) (j : Nat) :
    getN d (l ++ l2) (l.length + j) = getN d l2 j := by
  induction l with
  | nil => simp [getN]
  | cons a t ih => simpa [Nat.succ_add, getN] using ih

theorem getN_concat_self {α : Type} (d : α) (l : List α) (v : α) :
    getN d (l ++ [v]) l.length = v := by
  have := getN_append_right d l [v] 0
  simpa using this

theorem length_setN {α : Type} (l : List α) (i : Nat) (v : α) :
    (setN l i v).length = l.length := by
  induction l generalizing i with
  | nil => rfl
  | cons a t ih =>
    cases i with
    | zero => rfl
    | succ j => simp [setN, ih]

theorem getN_setN_eq {α : Type} (d : α) (l : List α) (i : Nat) (v : α)
    (h : i < l.length) : getN d (setN l i v) i = v := by
  induction l generalizing i with
  | nil => simp at h
  | cons a t ih =>
    cases i with
    | zero => rfl
    | succ j => exact ih j (by simpa using h)

theorem getN_setN_ne {α : Type} (d : α) (l : List α) (i j : Nat) (v : α)
    (h : i ≠ j) : getN d (setN l i v) j = getN d l j := by
  induction l generalizing i j with
  | nil => rfl
  | cons a t ih =>
    cases i with
    | zero =>
      cases j with
      | zero => exact absurd rfl h
      | succ jj => rfl
    | succ ii =>
      cases j with
      | zero => rfl
      | succ jj => exact ih ii jj (by omega)

theorem jsSetD_inbounds {α : Type} (d : α) (l : List α) (i : Nat) (v : α)
    (h : i < l.length) : jsSetD d l i v = setN l i v := by
  simp [jsSetD, h]

theorem jsSetD_at_length {α : Type} (d : α) (l : List α) (v : α) :
    jsSetD d l l.length v = l ++ [v] := by
  simp [jsSetD]

theorem getN_mem {α : Type} (d : α) (l : List α) (i : Nat) (h : i < l.length) :
    getN d l i ∈ l := by
  induction l generalizing i with
  | nil => simp at h
  | cons a t ih =>
    cases i with
    | zero => exact List.mem_cons_self a t
    | succ j => exact List.mem_cons_of_mem a (ih j (by simpa using h))

theorem mem_getN {α : Type} (d : α) (l : List α) (a : α) (h : a ∈ l) :
    ∃ i, i < l.length ∧ getN d l i = a := by
  induction l with
  | nil => simp at h
  | cons b t ih =>
    rcases List.mem_cons.mp h with rfl | hmem
    · exact ⟨0, by simp, rfl⟩
    · obtain ⟨i, hi, hg⟩ := ih hmem
      exact ⟨i + 1, by simpa using Nat.succ_lt_succ hi, hg⟩

theorem getN_dropLast {α : Type} (d : α) (l : List α) (i : Nat)
    (h : i < l.length - 1) : getN d l.dropLast i = getN d l i := by
  induction l generalizing i with
  | nil => simp at h
  | cons a t ih =>
    cases t with
    | nil => simp at h
    | cons b u =>
      cases i with
      | zero => rfl
      | succ j =>
        have h2 : j + 1 < (a :: b :: u).length - 1 := h
        have h3 : j < (b :: u).length - 1 := by
          simp [List.length_cons] at h2 ⊢
          omega
        simpa [getN, List.dropLast] using ih j h3

theorem nodup_getN_inj (l : List Nat) (hnd : l.Nodup) (i j : Nat)
    (hi : i < l.length) (hj : j < l.length) (h : getN 0 l i = getN 0 l j) :
    i = j := by
  induction l generalizing i j with
  | nil => simp at hi
  | cons a t ih =>
    have hna : a ∉ t := (List.nodup_cons.mp hnd).1
    have hnt : t.Nodup := (List.nodup_cons.mp hnd).2
    cases i with
    | zero =>
      cases j with
      | zero => rfl
      | succ jj =>
        exfalso
        have : getN 0 t jj ∈ t := getN_mem 0 t jj (by simpa using hj)
        rw [show getN 0 (a :: t) 0 = a from rfl] at h
        exact hna (h ▸ this)
    | succ ii =>
      cases j with
      | zero =>
        exfalso
        have : getN 0 t ii ∈ t := getN_mem 0 t ii (by simpa using hi)
        rw [show getN 0 (a :: t) 0 = a from rfl] at h
        exact hna (h ▸ this)
      | succ jj =>
        have := ih hnt ii jj (by simpa using hi) (by simpa using hj) h
        omega

theorem mapGet_nil (k : Nat) : mapGet [] k = none := rfl

theorem mapGet_cons (a : Nat × Nat) (m : List (Nat × Nat)) (k : Nat) :
    mapGet (a :: m) k = if a.1 = k then some a.2 else mapGet m k := by
  by_cases h : a.1 = k
  · have hb : (a.1 == k) = true := by simpa using h
    simp [mapGet, List.find?_cons, hb, h]
  · have hb : (a.1 == k) = false := by simpa using h
    simp [mapGet, List.find?_cons, hb, h]

theorem mapGet_replace_ne (m : List (Nat × Nat)) (k v k2 : Nat) (h : k2 ≠ k) :
    mapGet (m.map (fun p => if p.1 == k then (k, v) else p)) k2 = mapGet m k2 := by
  induction m with
  | nil => rfl
  | cons a m ih =>
    simp only [List.map_cons]
    by_cases hak : a.1 = k
    · have hb : (a.1 == k) = true := by simpa using hak
      have h1 : ¬ (k = k2) := fun hh => h hh.symm
      have h2 : ¬ (a.1 = k2) := by rw [hak]; exact h1
      rw [hb]
      simp only [if_true]
      rw [mapGet_cons, mapGet_cons]
      simp only [h1, h2, if_false, ih]
    · have hb : (a.1 == k) = false := by simpa using hak
      rw [hb]
      simp only [Bool.false_eq_true, if_false]
      rw [mapGet_cons, mapGet_cons]
      by_cases hk2 : a.1 = k2
      · rw [if_pos hk2, if_pos hk2]
      · rw [if_neg hk2, if_neg hk2]
        exact ih

theorem mapGet_replace_self (m : List (Nat × Nat)) (k v : Nat)
    (h : m.any (fun p => p.1 == k) = true) :
    mapGet (m.map (fun p => if p.1 == k then (k, v) else p)) k = some v := by
  induction m with
  | nil => simp at h
  | cons a m ih =>
    simp only [List.map_cons]
    by_cases hak : a.1 = k
    · have hb : (a.1 == k) = true := by simpa using hak
      rw [hb]
      simp only [if_true]
      rw [mapGet_cons]
      simp
    · have hb : (a.1 == k) = false := by simpa using hak
      have h2 : m.any (fun p => p.1 == k) = true := by
        rcases List.any_eq_true.mp h with ⟨p, hp, hpk⟩
        rcases List.mem_cons.mp hp with rfl | hpm
        · exact absurd (by simpa using hpk) hak
        · exact List.any_eq_true.mpr ⟨p, hpm, hpk⟩
      rw [hb]
      simp only [Bool.false_eq_true, if_false]
      rw [mapGet_cons]
      simp only [hak, if_false, ih h2]

theorem mapGet_none_of_any_false (m : List (Nat × Nat)) (k : Nat)
    (h : m.any (fun p => p.1 == k) = false) : mapGet m k = none := by
  induction m with
  | nil => rfl
  | cons a m ih =>
    simp only [List.any_cons, Bool.or_eq_false_iff] at h
    have h1 : ¬ (a.1 = k) := by simpa using h.1
    rw [mapGet_cons]
    simp only [h1, if_false]
    exact ih h.2

theorem mapGet_append_single_none (m : List (Nat × Nat)) (k v k2 : Nat)
    (h : mapGet m k2 = none) :
    mapGet (m ++ [(k, v)]) k2 = if k2 = k then some v else none := by
  induction m with
  | nil =>
    simp only [List.nil_append]
    rw [mapGet_cons]
    by_cases hk : k2 = k
    · subst hk
      simp
    · have hk' : ¬ (k = k2) := fun hh => hk hh.symm
      simp [hk, hk', mapGet_nil]
  | cons a m ih =>
    rw [mapGet_cons] at h
    by_cases hak : a.1 = k2
    · simp [hak] at h
    · simp only [hak, if_false] at h
      simp only [List.cons_append]
      rw [mapGet_cons]
      simp only [hak, if_false]
      exact ih h

theorem mapGet_append_single_some (m : List (Nat × Nat)) (k v k2 x : Nat)
    (h : mapGet m k2 = some x) : mapGet (m ++ [(k, v)]) k2 = some x := by
  induction m with
  | nil => simp [mapGet_nil] at h
  | cons a m ih =>
    rw [mapGet_cons] at h
    simp only [List.cons_append]
    rw [mapGet_cons]
    by_cases hak : a.1 = k2
    · simpa [hak] using h
    · simp only [hak, if_false] at h ⊢
      exact ih h

theorem mapGet_set (m : List (Nat × Nat)) (k v k2 : Nat) :
    mapGet (mapSet m k v) k2 = if k2 = k then some v else mapGet m k2 := by
  by_cases hany : m.any (fun p => p.1 == k) = true
  · simp only [mapSet, if_pos hany]
    by_cases hk : k2 = k
    · subst hk
      rw [mapGet_replace_self m k2 v hany]
      simp
    · rw [mapGet_replace_ne m k v k2 hk, if_neg hk]
  · have hany2 : m.any (fun p => p.1 == k) = false := by
      rcases Bool.eq_false_or_eq_true (m.any (fun p => p.1 == k)) with h | h
      · exact absurd h hany
      · exact h
    simp only [mapSet, hany2, Bool.false_eq_true, if_false]
    have hnone := mapGet_none_of_any_false m k hany2
    by_cases hk : k2 = k
    · subst hk
      rw [mapGet_append_single_none m k2 v k2 hnone]
      simp
    · cases hm : mapGet m k2 with
      | none => simp [mapGet_append_single_none m k v k2 hm, hk, hm]
      | some x => simp [mapGet_append_single_some m k v k2 x hm, hk, hm]

theorem mapGet_delete (m : List (Nat × Nat)) (k k2 : Nat) :
    mapGet (mapDelete m k) k2 = if k2 = k then none else mapGet m k2 := by
  induction m with
  | nil => simp [mapDelete, mapGet_nil]
  | cons a m ih =>
    by_cases hak : a.1 = k
    · have hb : (a.1 != k) = false := by simp [hak]
      simp only [mapDelete, List.filter_cons, hb, Bool.false_eq_true, if_false]
      simp only [mapDelete] at ih
      rw [ih]
      by_cases hk : k2 = k
      · simp [hk]
      · have h2 : ¬ (a.1 = k2) := by rw [hak]; exact fun hh => hk hh.symm
        rw [mapGet_cons]
        simp [hk, h2]
    · have hb : (a.1 != k) = true := by simp [hak]
      simp only [mapDelete, List.filter_cons, hb, if_true]
      simp only [mapDelete] at ih
      rw [mapGet_cons, mapGet_cons, ih]
      by_cases hk2 : a.1 = k2
      · have : ¬ (k2 = k) := by rw [← hk2]; exact fun hh => hak hh
        simp [hk2, this]
      · simp [hk2]

theorem foldl_range_succ {β : Type} (f : β → Nat → β) (b : β) (n : Nat) :
    (List.range (n + 1)).foldl f b = f ((List.range n).foldl f b) n := by
  rw [List.range_succ, List.foldl_append]
  rfl

theorem jsSetD_append_fold {α : Type} (d : α) (f : Nat → α) (n : Nat)
    (l : List α) (L : Nat) (hl : l.length = L) :
    (List.range n).foldl (fun acc i => jsSetD d acc (L + i) (f i)) l
      = l ++ (List.range n).map f := by
  induction n with
  | zero => simp
  | succ n ih =>
    rw [foldl_range_succ, ih]
    have hlen : (l ++ (List.range n).map f).length = L + n := by
      simp [hl]
    rw [show L + n = (l ++ (List.range n).map f).length from hlen.symm,
        jsSetD_at_length, List.range_succ, List.map_append]
    simp

theorem range_map_getN {α : Type} (d : α) (l : List α) :
    (List.range l.length).map (fun i => getN d l i) = l := by
  induction l with
  | nil => simp
  | cons a t ih =>
    rw [List.length_cons, List.range_succ_eq_map, List.map_cons, List.map_map]
    have hc : ((fun i => getN d (a :: t) i) ∘ Nat.succ) = fun i => getN d t i := by
      funext i
      rfl
    rw [hc, ih]
    rfl

theorem mapGet_foldSet_notin (l : List Nat) (val : Nat → Nat)
    (m0 : List (Nat × Nat)) (n : Nat) (k : Nat)
    (h : ∀ j, j < n → getN 0 l j ≠ k) :
    mapGet ((List.range n).foldl (fun m i => mapSet m (getN 0 l i) (val i)) m0) k
      = mapGet m0 k := by
  induction n with
  | zero => rfl
  | succ n ih =>
    rw [foldl_range_succ, mapGet_set,
        if_neg (fun hh => h n (by omega) hh.symm)]
    exact ih (fun j hj => h j (by omega))

theorem mapGet_foldSet_hit (l : List Nat) (val : Nat → Nat)
    (m0 : List (Nat × Nat)) (n j k : Nat) (hnd : l.Nodup)
    (hn : n ≤ l.length) (hj : j < n) (hk : getN 0 l j = k) :
    mapGet ((List.range n).foldl (fun m i => mapSet m (getN 0 l i) (val i)) m0) k
      = some (val j) := by
  revert hn hj
  induction n with
  | zero => intro hn hj; omega
  | succ n ih =>
    intro hn hj
    rw [foldl_range_succ, mapGet_set]
    by_cases hjn : j = n
    · subst hjn
      rw [if_pos hk.symm]
    · have hne : k ≠ getN 0 l n := by
        intro hh
        exact hjn (nodup_getN_inj l hnd j n (by omega) (by omega)
          (hk.trans hh))
      rw [if_neg hne]
      exact ih (by omega) (by omega)

theorem buildRowMap_hit (l : List Nat) (hnd : l.Nodup) (i : Nat)
    (hi : i < l.length) : mapGet (buildRowMap l) (getN 0 l i) = some i := by
  have h := mapGet_foldSet_hit l (fun x => x) [] l.length i (getN 0 l i)
    hnd le_rfl hi rfl
  simpa [buildRowMap] using h

theorem buildRowMap_mem (l : List Nat) (hnd : l.Nodup) (k idx : Nat)
    (h : mapGet (buildRowMap l) k = some idx) :
    idx < l.length ∧ getN 0 l idx = k := by
  by_cases hex : ∃ j, j < l.length ∧ getN 0 l j = k
  · obtain ⟨j, hj, hk⟩ := hex
    have h2 := mapGet_foldSet_hit l (fun x => x) [] l.length j k hnd le_rfl hj hk
    have h3 : mapGet (buildRowMap l) k = some j := by
      simpa [buildRowMap] using h2
    rw [h3] at h
    have : idx = j := by
      injection h with hh
      omega
    subst this
    exact ⟨hj, hk⟩
  · push_neg at hex
    have h2 := mapGet_foldSet_notin l (fun x => x) [] l.length k hex
    have h3 : mapGet (buildRowMap l) k = none := by
      simpa [buildRowMap, mapGet_nil] using h2
    rw [h3] at h
    exact absurd h (by simp)

theorem popMove_length {α : Type} (d : α) (l : List α) (index : Nat)
    (h : index < l.length) : (popMove d l index).length = l.length - 1 := by
  unfold popMove
  rw [jsSetD_inbounds _ _ _ _ h, List.length_dropLast, length_setN]

theorem popMove_getN {α : Type} (d : α) (l : List α) (index i : Nat)
    (h : index < l.length) (hi : i < l.length - 1) :
    getN d (popMove d l index) i =
      if i = index then getN d l (l.length - 1) else getN d l i := by
  unfold popMove
  rw [jsSetD_inbounds _ _ _ _ h]
  have hlen : (setN l index (getN d l (l.length - 1))).length = l.length :=
    length_setN l index _
  rw [getN_dropLast _ _ _ (by rw [hlen]; exact hi)]
  by_cases hii : i = index
  · subst hii
    rw [getN_setN_eq _ _ _ _ h, if_pos rfl]
  · rw [getN_setN_ne _ _ _ _ _ (fun hh => hii hh.symm), if_neg hii]

theorem bulkLookup_mem (cvs : BulkColValues) (cid : String)
    (vs : List CellValue) (h : bulkLookup cvs cid = some vs) :
    ∃ p, p ∈ cvs ∧ p.2 = vs := by
  unfold bulkLookup at h
  cases hf : cvs.find? (fun p => p.1 == cid) with
  | none => rw [hf] at h; simp at h
  | some p =>
    rw [hf] at h
    simp at h
    exact ⟨p, List.mem_of_find?_eq_some hf, h⟩

theorem WFTable_loadData (t : TableData) (a : TableDataAction)
    (h : ValidSnapshot a) : WFTable (t.loadData a).1 := by
  obtain ⟨hnd, hlen⟩ := h
  refine ⟨?_, ?_, ?_⟩
  · intro i hi
    simp only [TableData.loadData] at hi ⊢
    exact buildRowMap_hit a.rowIds hnd i hi
  · intro id idx hidx
    simp only [TableData.loadData] at hidx ⊢
    exact buildRowMap_mem a.rowIds hnd id idx hidx
  · intro c hc
    simp only [TableData.loadData, List.mem_map] at hc
    obtain ⟨c0, _, rfl⟩ := hc
    simp only [TableData.loadData]
    cases hb : bulkLookup a.colValues c0.colId with
    | some vs =>
      obtain ⟨p, hp, hp2⟩ := bulkLookup_mem a.colValues c0.colId vs hb
      simpa [hp2] using hlen p hp
    | none => simp

theorem WFTable_onAddRecord (t : TableData) (rowId : Nat) (cvs : ColValues)
    (hwf : WFTable t) (hfresh : mapGet t.rowMap rowId = none) :
    WFTable (t.onAddRecord rowId cvs) := by
  obtain ⟨h1, h2, h3⟩ := hwf
  have hset : jsSetD 0 t.rowIdCol t.rowIdCol.length rowId
      = t.rowIdCol ++ [rowId] := jsSetD_at_length 0 t.rowIdCol rowId
  refine ⟨?_, ?_, ?_⟩
  · intro i hi
    simp only [TableData.onAddRecord, hset, List.length_append,
      List.length_singleton] at hi ⊢
    by_cases hil : i < t.rowIdCol.length
    · rw [getN_append_left 0 _ _ i hil, mapGet_set]
      have hne : getN 0 t.rowIdCol i ≠ rowId := by
        intro hh
        have hcontra := h1 i hil
        rw [hh, hfresh] at hcontra
        exact absurd hcontra (by simp)
      rw [if_neg hne]
      exact h1 i hil
    · have hieq : i = t.rowIdCol.length := by omega
      subst hieq
      rw [getN_concat_self, mapGet_set, if_pos rfl]
  · intro id idx hidx
    simp only [TableData.onAddRecord, hset, List.length_append,
      List.length_singleton] at hidx ⊢
    rw [mapGet_set] at hidx
    by_cases hk : id = rowId
    · rw [if_pos hk] at hidx
      have : idx = t.rowIdCol.length := by
        injection hidx with hh
        omega
      subst this
      subst hk
      exact ⟨by omega, getN_concat_self 0 t.rowIdCol id⟩
    · rw [if_neg hk] at hidx
      obtain ⟨hlt, hg⟩ := h2 id idx hidx
      exact ⟨by omega, by rw [getN_append_left 0 _ _ idx hlt]; exact hg⟩
  · intro c hc
    simp only [TableData.onAddRecord, List.mem_map] at hc
    obtain ⟨c0, hc0, rfl⟩ := hc
    have hl0 : c0.values.length = t.rowIdCol.length := h3 c0 hc0
    simp only [TableData.onAddRecord, hset, List.length_append,
      List.length_singleton]
    rw [show t.rowIdCol.length = c0.values.length from hl0.symm,
        jsSetD_at_length]
    simp [hl0]

theorem WFTable_onBulkAddRecord (t : TableData) (rowIds : List Nat)
    (cvs : BulkColValues) (hwf : WFTable t) (hnd : rowIds.Nodup)
    (hfresh : ∀ r, r ∈ rowIds → mapGet t.rowMap r = none) :
    WFTable (t.onBulkAddRecord rowIds cvs) := by
  obtain ⟨h1, h2, h3⟩ := hwf
  have hcol : (List.range rowIds.length).foldl
      (fun l i => jsSetD 0 l (t.rowIdCol.length + i) (getN 0 rowIds i))
      t.rowIdCol = t.rowIdCol ++ rowIds := by
    rw [jsSetD_append_fold 0 _ rowIds.length t.rowIdCol t.rowIdCol.length rfl,
        range_map_getN]
  have hnotin : ∀ k, mapGet t.rowMap k ≠ none → ∀ j, j < rowIds.length →
      getN 0 rowIds j ≠ k := by
    intro k hk j hj hh
    exact hk (hh ▸ hfresh (getN 0 rowIds j) (getN_mem 0 rowIds j hj))
  refine ⟨?_, ?_, ?_⟩
  · intro i hi
    simp only [TableData.onBulkAddRecord, hcol, List.length_append] at hi ⊢
    by_cases hil : i < t.rowIdCol.length
    · rw [getN_append_left 0 _ _ i hil]
      have hkey : mapGet t.rowMap (getN 0 t.rowIdCol i) = some i := h1 i hil
      rw [mapGet_foldSet_notin rowIds (fun i => t.rowIdCol.length + i)
        t.rowMap rowIds.length (getN 0 t.rowIdCol i)
        (hnotin _ (by rw [hkey]; simp))]
      exact hkey
    · have hj : i - t.rowIdCol.length < rowIds.length := by omega
      have hieq : i = t.rowIdCol.length + (i - t.rowIdCol.length) := by omega
      rw [hieq, getN_append_right 0 t.rowIdCol rowIds _]
      rw [mapGet_foldSet_hit rowIds (fun i => t.rowIdCol.length + i)
        t.rowMap rowIds.length (i - t.rowIdCol.length) _ hnd le_rfl hj rfl]
  · intro id idx hidx
    simp only [TableData.onBulkAddRecord, hcol, List.length_append] at hidx ⊢
    by_cases hmem : id ∈ rowIds
    · obtain ⟨j, hj, hgj⟩ := mem_getN 0 rowIds id hmem
      rw [mapGet_foldSet_hit rowIds (fun i => t.rowIdCol.length + i)
        t.rowMap rowIds.length j id hnd le_rfl hj hgj] at hidx
      have : idx = t.rowIdCol.length + j := by
        injection hidx with hh
        omega
      subst this
      refine ⟨by omega, ?_⟩
      rw [getN_append_right 0 t.rowIdCol rowIds j]
      exact hgj
    · have hne : ∀ j, j < rowIds.length → getN 0 rowIds j ≠ id := by
        intro j hj hh
        exact hmem (hh ▸ getN_mem 0 rowIds j hj)
      rw [mapGet_foldSet_notin rowIds (fun i => t.rowIdCol.length + i)
        t.rowMap rowIds.length id hne] at hidx
      obtain ⟨hlt, hg⟩ := h2 id idx hidx
      exact ⟨by omega, by rw [getN_append_left 0 _ _ idx hlt]; exact hg⟩
  · intro c hc
    simp only [TableData.onBulkAddRecord, List.mem_map] at hc
    obtain ⟨c0, hc0, rfl⟩ := hc
    have hl0 : c0.values.length = t.rowIdCol.length := h3 c0 hc0
    simp only [TableData.onBulkAddRecord, hcol, List.length_append]
    rw [jsSetD_append_fold CellValue.undef _ rowIds.length c0.values
      t.rowIdCol.length hl0]
    simp [hl0]

theorem WFTable_onRemoveRecord (t : TableData) (rowId : Nat)
    (hwf : WFTable t) : WFTable (t.onRemoveRecord rowId) := by
  obtain ⟨h1, h2, h3⟩ := hwf
  unfold TableData.onRemoveRecord
  cases hm : mapGet t.rowMap rowId with
  | none => exact ⟨h1, h2, h3⟩
  | some index =>
    obtain ⟨hidx, hgi⟩ := h2 rowId index hm
    have hinj : ∀ i j, i < t.rowIdCol.length → j < t.rowIdCol.length →
        getN 0 t.rowIdCol i = getN 0 t.rowIdCol j → i = j := by
      intro i j hi hj he
      have ha := h1 i hi
      rw [he, h1 j hj] at ha
      injection ha with hh
      omega
    have hplen : (popMove 0 t.rowIdCol index).length = t.rowIdCol.length - 1 :=
      popMove_length 0 t.rowIdCol index hidx
    have hpget := popMove_getN 0 t.rowIdCol index
    dsimp only
    by_cases hcase : index < t.rowIdCol.length - 1
    · -- the last row moves into the freed slot
      rw [if_pos (by rw [hplen]; exact hcase)]
      have hmoved : getN 0 (popMove 0 t.rowIdCol index) index
          = getN 0 t.rowIdCol (t.rowIdCol.length - 1) := by
        rw [hpget index hidx hcase, if_pos rfl]
      rw [hmoved]
      have hMne : getN 0 t.rowIdCol (t.rowIdCol.length - 1) ≠ rowId := by
        intro hh
        rw [← hgi] at hh
        have := hinj _ _ (by omega) hidx hh
        omega
      refine ⟨?_, ?_, ?_⟩
      · intro i hi
        rw [hplen] at hi
        rw [mapGet_delete]
        by_cases hii : i = index
        · subst hii
          rw [hmoved, if_neg hMne, mapGet_set, if_pos rfl]
        · rw [hpget i hidx (by omega), if_neg hii]
          have hkne : getN 0 t.rowIdCol i ≠ rowId := by
            intro hh
            rw [← hgi] at hh
            exact hii (hinj i index (by omega) hidx hh)
          have hkneM : getN 0 t.rowIdCol i
              ≠ getN 0 t.rowIdCol (t.rowIdCol.length - 1) := by
            intro hh
            have := hinj i _ (by omega) (by omega) hh
            omega
          rw [if_neg hkne, mapGet_set, if_neg hkneM]
          exact h1 i (by omega)
      · intro id idx hh
        rw [mapGet_delete] at hh
        by_cases hid : id = rowId
        · rw [if_pos hid] at hh
          exact absurd hh (by simp)
        · rw [if_neg hid, mapGet_set] at hh
          by_cases hidM : id = getN 0 t.rowIdCol (t.rowIdCol.length - 1)
          · rw [if_pos hidM] at hh
            have : idx = index := by
              injection hh with h4
              omega
            subst this
            rw [hplen]
            refine ⟨hcase, ?_⟩
            rw [hpget idx hidx hcase, if_pos rfl]
            exact hidM.symm
          · rw [if_neg hidM] at hh
            obtain ⟨hlt, hg⟩ := h2 id idx hh
            have hne1 : idx ≠ index := by
              intro hh2
              rw [hh2, hgi] at hg
              exact hid hg.symm
            have hne2 : idx ≠ t.rowIdCol.length - 1 := by
              intro hh2
              rw [hh2] at hg
              exact hidM hg.symm
            rw [hplen]
            refine ⟨by omega, ?_⟩
            rw [hpget idx hidx (by omega), if_neg hne1]
            exact hg
      · intro c hc
        simp only [List.mem_map] at hc
        obtain ⟨c0, hc0, rfl⟩ := hc
        have hl0 : c0.values.length = t.rowIdCol.length := h3 c0 hc0
        simp only [hplen]
        rw [popMove_length CellValue.undef c0.values index (by omega), hl0]
    · -- the removed row occupied the last position
      have hieq : index = t.rowIdCol.length - 1 := by omega
      rw [if_neg (by rw [hplen]; exact hcase)]
      refine ⟨?_, ?_, ?_⟩
      · intro i hi
        rw [hplen] at hi
        rw [mapGet_delete]
        have hkne : getN 0 t.rowIdCol i ≠ rowId := by
          intro hh
          rw [← hgi] at hh
          have := hinj i index (by omega) hidx hh
          omega
        rw [hpget i hidx (by omega), if_neg (show ¬ i = index by omega),
            if_neg hkne]
        exact h1 i (by omega)
      · intro id idx hh
        rw [mapGet_delete] at hh
        by_cases hid : id = rowId
        · rw [if_pos hid] at hh
          exact absurd hh (by simp)
        · rw [if_neg hid] at hh
          obtain ⟨hlt, hg⟩ := h2 id idx hh
          have hne1 : idx ≠ index := by
            intro hh2
            rw [hh2, hgi] at hg
            exact hid hg.symm
          rw [hplen]
          refine ⟨by omega, ?_⟩
          rw [hpget idx hidx (by omega), if_neg hne1]
          exact hg
      · intro c hc
        simp only [List.mem_map] at hc
        obtain ⟨c0, hc0, rfl⟩ := hc
        have hl0 : c0.values.length = t.rowIdCol.length := h3 c0 hc0
        simp only [hplen]
        rw [popMove_length CellValue.undef c0.values index (by omega), hl0]

theorem updateRowCols_shape (cvs : ColValues) (t : TableData) (index : Nat)
    (hidx : index < t.rowIdCol.length)
    (hlen : ∀ c ∈ t.colArray, c.values.length = t.rowIdCol.length)
    (hnoid : ∀ p, p ∈ cvs → p.1 ≠ "id") :
    (t.updateRowCols index cvs).tableId = t.tableId ∧
    (t.updateRowCols index cvs).isLoaded = t.isLoaded ∧
    (t.updateRowCols index cvs).rowIdCol = t.rowIdCol ∧
    (t.updateRowCols index cvs).rowMap = t.rowMap ∧
    (∀ c, c ∈ (t.updateRowCols index cvs).colArray →
      c.values.length = t.rowIdCol.length) := by
  induction cvs generalizing t with
  | nil => exact ⟨rfl, rfl, rfl, rfl, hlen⟩
  | cons p ps ih =>
    have hpid : (p.1 == "id") = false := by
      simpa using hnoid p (List.mem_cons_self p ps)
    have hstep : t.updateRowCols index (p :: ps) =
        TableData.updateRowCols
          { t with colArray := t.colArray.map (fun c =>
              if c.colId == p.1 then
                { c with values := jsSetD CellValue.undef c.values index p.2 }
              else c) }
          index ps := by
      show List.foldl _ _ (p :: ps) = _
      rw [List.foldl_cons]
      simp only [hpid, Bool.false_eq_true, if_false]
      rfl
    rw [hstep]
    have hlen1 : ∀ c, c ∈ t.colArray.map (fun c =>
        if c.colId == p.1 then
          { c with values := jsSetD CellValue.undef c.values index p.2 }
        else c) → c.values.length = t.rowIdCol.length := by
      intro c hc
      simp only [List.mem_map] at hc
      obtain ⟨c0, hc0, rfl⟩ := hc
      by_cases hb : (c0.colId == p.1) = true
      · rw [if_pos hb]
        have hl0 : c0.values.length = t.rowIdCol.length := hlen c0 hc0
        simp only
        rw [jsSetD_inbounds _ _ _ _ (by rw [hl0]; exact hidx), length_setN]
        exact hl0
      · rw [if_neg hb]
        exact hlen c0 hc0
    exact ih _ hidx hlen1 (fun q hq => hnoid q (List.mem_cons_of_mem p hq))

theorem WFTable_onUpdateRecord (t : TableData) (rowId : Nat)
    (cvs : ColValues) (hwf : WFTable t)
    (hnoid : ∀ p, p ∈ cvs → p.1 ≠ "id") :
    WFTable (t.onUpdateRecord rowId cvs) := by
  unfold TableData.onUpdateRecord
  cases hm : mapGet t.rowMap rowId with
  | none => exact hwf
  | some index =>
    obtain ⟨h1, h2, h3⟩ := hwf
    obtain ⟨hidx, _⟩ := h2 rowId index hm
    obtain ⟨_, _, hrow, hmap, hcols⟩ :=
      updateRowCols_shape cvs t index hidx h3 hnoid
    refine ⟨?_, ?_, ?_⟩
    · intro i hi
      rw [hrow] at hi ⊢
      rw [hmap]
      exact h1 i hi
    · intro id idx hh
      rw [hmap] at hh
      rw [hrow]
      exact h2 id idx hh
    · intro c hc
      rw [hrow]
      exact hcols c hc

theorem bulkUpdate_aux (t : TableData) (idxs : List Nat)
    (B : TableData → Nat → TableData)
    (hB : ∀ acc i,
      (acc.rowIdCol = t.rowIdCol ∧ acc.rowMap = t.rowMap ∧
       acc.isLoaded = t.isLoaded ∧
       (∀ c, c ∈ acc.colArray → c.values.length = t.rowIdCol.length)) →
      ((B acc i).rowIdCol = t.rowIdCol ∧ (B acc i).rowMap = t.rowMap ∧
       (B acc i).isLoaded = t.isLoaded ∧
       (∀ c, c ∈ (B acc i).colArray →
         c.values.length = t.rowIdCol.length)))
    (acc : TableData)
    (hacc : acc.rowIdCol = t.rowIdCol ∧ acc.rowMap = t.rowMap ∧
      acc.isLoaded = t.isLoaded ∧
      (∀ c, c ∈ acc.colArray → c.values.length = t.rowIdCol.length)) :
    ((idxs.foldl B acc).rowIdCol = t.rowIdCol ∧
     (idxs.foldl B acc).rowMap = t.rowMap ∧
     (idxs.foldl B acc).isLoaded = t.isLoaded ∧
     (∀ c, c ∈ (idxs.foldl B acc).colArray →
       c.values.length = t.rowIdCol.length)) := by
  induction idxs generalizing acc with
  | nil => exact hacc
  | cons i is ih => exact ih (B acc i) (hB acc i hacc)

theorem WFTable_onBulkUpdateRecord (t : TableData) (rowIds : List Nat)
    (cvs : BulkColValues) (hwf : WFTable t)
    (hnoid : ∀ p, p ∈ cvs → p.1 ≠ "id") :
    WFTable (t.onBulkUpdateRecord rowIds cvs) := by
  obtain ⟨h1, h2, h3⟩ := hwf
  have haux := bulkUpdate_aux t (List.range rowIds.length)
    (fun acc i =>
      match mapGet acc.rowMap (getN 0 rowIds i) with
      | none => acc
      | some index =>
        acc.updateRowCols index
          (cvs.map (fun p => (p.1, getN CellValue.undef p.2 i))))
    (by
      intro acc i hacc
      obtain ⟨ha1, ha2, ha3, ha4⟩ := hacc
      dsimp only
      cases hm : mapGet acc.rowMap (getN 0 rowIds i) with
      | none => exact ⟨ha1, ha2, ha3, ha4⟩
      | some index =>
        rw [ha2] at hm
        obtain ⟨hidx, _⟩ := h2 _ index hm
        have hidx2 : index < acc.rowIdCol.length := by rw [ha1]; exact hidx
        have hlen2 : ∀ c, c ∈ acc.colArray →
            c.values.length = acc.rowIdCol.length := by
          intro c hc
          rw [ha1]
          exact ha4 c hc
        have hnoid2 : ∀ q,
            q ∈ cvs.map (fun p => (p.1, getN CellValue.undef p.2 i)) →
            q.1 ≠ "id" := by
          intro q hq
          simp only [List.mem_map] at hq
          obtain ⟨p, hp, rfl⟩ := hq
          exact hnoid p hp
        obtain ⟨_, hb2, hb3, hb4, hb5⟩ := updateRowCols_shape
          (cvs.map (fun p => (p.1, getN CellValue.undef p.2 i)))
          acc index hidx2 hlen2 hnoid2
        refine ⟨by rw [hb3, ha1], by rw [hb4, ha2], by rw [hb2, ha3], ?_⟩
        intro c hc
        have := hb5 c hc
        rw [ha1] at this
        exact this)
    t ⟨rfl, rfl, rfl, h3⟩
  obtain ⟨hr, hm, _, hc⟩ := haux
  have hgoal : t.onBulkUpdateRecord rowIds cvs =
      (List.range rowIds.length).foldl
        (fun acc i =>
          match mapGet acc.rowMap (getN 0 rowIds i) with
          | none => acc
          | some index =>
            acc.updateRowCols index
              (cvs.map (fun p => (p.1, getN CellValue.undef p.2 i)))) t := rfl
  rw [hgoal]
  refine ⟨?_, ?_, ?_⟩
  · intro i hi
    rw [hr] at hi ⊢
    rw [hm]
    exact h1 i hi
  · intro id idx hh
    rw [hm] at hh
    rw [hr]
    exact h2 id idx hh
  · intro c hcc
    rw [hr]
    exact hc c hcc

theorem WFTable_step (t : TableData) (a : DocAction) (hwf : WFTable t)
    (hv : validStep t a) : WFTable (t.dispatchAction a) := by
  cases a with
  | AddRecord tid rowId cvs => exact WFTable_onAddRecord t rowId cvs hwf hv
  | BulkAddRecord tid rowIds cvs =>
    exact WFTable_onBulkAddRecord t rowIds cvs hwf hv.1 hv.2
  | RemoveRecord tid rowId => exact WFTable_onRemoveRecord t rowId hwf
  | UpdateRecord tid rowId cvs =>
    exact WFTable_onUpdateRecord t rowId cvs hwf hv
  | BulkUpdateRecord tid rowIds cvs =>
    exact WFTable_onBulkUpdateRecord t rowIds cvs hwf hv
  | BulkRemoveRecord tid rowIds => exact hv.elim
  | ReplaceTableData tid rowIds cvs => exact hv.elim
  | AddColumn tid cid ci => exact hv.elim
  | RemoveColumn tid cid => exact hv.elim
  | RenameColumn tid o n => exact hv.elim
  | ModifyColumn tid o ci => exact hv.elim
  | AddTable tid cols => exact hv.elim
  | RemoveTable tid => exact hv.elim
  | RenameTable o n => exact hv.elim

/-- C1 (amended).  Index consistency: for every table state reachable from a
table loaded from a well-formed snapshot (distinct row ids, value arrays
matching the row count) by any sequence of AddRecord, BulkAddRecord,
RemoveRecord, UpdateRecord and BulkUpdateRecord actions in which added row
ids are fresh, bulk-added ids pairwise distinct, and update payloads carry no
id key (an id key writes through the synthetic entry aliasing the row-id
column), after each action the index satisfies rowMap[rowIdColumn[i]] = i for
every storage position i, rowIdColumn[rowMap[id]] = id for every resident row
id, and every declared column's value array has length equal to the row
count. -/
theorem index_consistency (t : TableData) (h : ReachableValid t) :
    indexInvariant t := by
  have hwf : WFTable t := by
    induction h with
    | load t0 a ha => exact WFTable_loadData t0 a ha
    | step t1 a ht ha ih => exact WFTable_step t1 a ih ha
  obtain ⟨h1, h2, h3⟩ := hwf
  refine ⟨h1, ?_, h3⟩
  intro id hid
  obtain ⟨i, hi, hgi⟩ := mem_getN 0 t.rowIdCol id hid
  refine ⟨i, ?_, hgi⟩
  rw [← hgi]
  exact h1 i hi

theorem index_consistency_witness :
    ReachableValid
      (((TableData.create "T" [("A", "Numeric")] none).loadData
        { tableId := "T", rowIds := [1, 2],
          colValues := [("A", [CellValue.num 10, CellValue.num 20])] }).1.dispatchAction
        (DocAction.RemoveRecord "T" 1)) ∧
    indexInvariant
      (((TableData.create "T" [("A", "Numeric")] none).loadData
        { tableId := "T", rowIds := [1, 2],
          colValues := [("A", [CellValue.num 10, CellValue.num 20])] }).1.dispatchAction
        (DocAction.RemoveRecord "T" 1)) := by
  have hr : ReachableValid
      (((TableData.create "T" [("A", "Numeric")] none).loadData
        { tableId := "T", rowIds := [1, 2],
          colValues := [("A", [CellValue.num 10, CellValue.num 20])] }).1.dispatchAction
        (DocAction.RemoveRecord "T" 1)) :=
    ReachableValid.step _ _
      (ReachableValid.load (TableData.create "T" [("A", "Numeric")] none)
        { tableId := "T", rowIds := [1, 2],
          colValues := [("A", [CellValue.num 10, CellValue.num 20])] }
        ⟨by decide, by decide⟩)
      trivial
  exact ⟨hr, index_consistency _ hr⟩

/-- C1, as frozen, is false, at two concrete single-action inputs.  (1) From
a loaded table holding row id 1, AddRecord with the already-resident row id
1 appends a duplicate to the row-id column while the index keeps one entry,
so position 0 no longer maps back to itself.  (2) From a loaded table
holding row ids [1, 2], UpdateRecord for row 1 with the payload key id
writes the value 7 through the synthetic id entry (whose values array IS the
row-id column) without touching the index, so position 0 holds the id 7 that
the index does not know.  Violation (1) forces the freshness condition of
the amendment and violation (2) its no-id-key condition on update
payloads. -/
theorem index_consistency_counterexample :
    (¬ indexInvariant
      (((TableData.create "T" [("A", "Numeric")] none).loadData
        { tableId := "T", rowIds := [1],
          colValues := [("A", [CellValue.num 10])] }).1.dispatchAction
        (DocAction.AddRecord "T" 1 []))) ∧
    (¬ indexInvariant
      (((TableData.create "T" [("A", "Numeric")] none).loadData
        { tableId := "T", rowIds := [1, 2],
          colValues := [("A", [CellValue.num 10, CellValue.num 20])] }).1.dispatchAction
        (DocAction.UpdateRecord "T" 1 [("id", CellValue.num 7)]))) := by
  constructor
  · intro h
    exact absurd (h.1 0 (by decide)) (by decide)
  · intro h
    exact absurd (h.1 0 (by decide)) (by decide)

/-- C4.  Removal reordering: on a table with row ids [1,2,3,4] in storage
order carrying values [a,b,c,d], removing id 2 moves id 4 and its values into
id 2's former storage position (last-into-freed-slot), shortens every
column's array by one (3 entries remain), and getSortedRowIds returns
[1,3,4]. -/
theorem removal_reordering (a b c d : CellValue) :
    (((TableData.create "T" [("A", "Numeric")] none).loadData
      { tableId := "T", rowIds := [1, 2, 3, 4],
        colValues := [("A", [a, b, c, d])] }).1.getRowIds = [1, 2, 3, 4]) ∧
    (((TableData.create "T" [("A", "Numeric")] none).loadData
      { tableId := "T", rowIds := [1, 2, 3, 4],
        colValues := [("A", [a, b, c, d])] }).1.getColValues "A"
      = some [a, b, c, d]) ∧
    ((((TableData.create "T" [("A", "Numeric")] none).loadData
      { tableId := "T", rowIds := [1, 2, 3, 4],
        colValues := [("A", [a, b, c, d])] }).1.dispatchAction
        (DocAction.RemoveRecord "T" 2)).getRowIds = [1, 4, 3]) ∧
    ((((TableData.create "T" [("A", "Numeric")] none).loadData
      { tableId := "T", rowIds := [1, 2, 3, 4],
        colValues := [("A", [a, b, c, d])] }).1.dispatchAction
        (DocAction.RemoveRecord "T" 2)).getColValues "A" = some [a, d, c]) ∧
    ((((TableData.create "T" [("A", "Numeric")] none).loadData
      { tableId := "T", rowIds := [1, 2, 3, 4],
        colValues := [("A", [a, b, c, d])] }).1.dispatchAction
        (DocAction.RemoveRecord "T" 2)).getValue 4 "A" = some d) ∧
    (∀ cid col,
      (((TableData.create "T" [("A", "Numeric")] none).loadData
        { tableId := "T", rowIds := [1, 2, 3, 4],
          colValues := [("A", [a, b, c, d])] }).1.dispatchAction
          (DocAction.RemoveRecord "T" 2)).getColValues cid = some col →
      col.length = 3) ∧
    ((((TableData.create "T" [("A", "Numeric")] none).loadData
      { tableId := "T", rowIds := [1, 2, 3, 4],
        colValues := [("A", [a, b, c, d])] }).1.dispatchAction
        (DocAction.RemoveRecord "T" 2)).getSortedRowIds = [1, 3, 4]) := by
  refine ⟨rfl, rfl, rfl, rfl, rfl, ?_, rfl⟩
  intro cid col h
  by_cases hid : cid = "id"
  · subst hid
    have heq : ((((TableData.create "T" [("A", "Numeric")] none).loadData
      { tableId := "T", rowIds := [1, 2, 3, 4],
        colValues := [("A", [a, b, c, d])] }).1.dispatchAction
      (DocAction.RemoveRecord "T" 2))).getColValues "id"
        = some [CellValue.num 1, CellValue.num 4, CellValue.num 3] := rfl
    rw [heq] at h
    injection h with h2
    rw [← h2]
    rfl
  · by_cases hA : cid = "A"
    · subst hA
      have heq : ((((TableData.create "T" [("A", "Numeric")] none).loadData
      { tableId := "T", rowIds := [1, 2, 3, 4],
        colValues := [("A", [a, b, c, d])] }).1.dispatchAction
      (DocAction.RemoveRecord "T" 2))).getColValues "A" = some [a, d, c] := rfl
      rw [heq] at h
      injection h with h2
      rw [← h2]
      rfl
    · have hid2 : (cid == "id") = false := by
        simpa using hid
      have hA2 : ("A" == cid) = false := by
        simp only [beq_eq_false_iff_ne, ne_eq]
        intro hh
        exact hA hh.symm
      have heq : ((((TableData.create "T" [("A", "Numeric")] none).loadData
      { tableId := "T", rowIds := [1, 2, 3, 4],
        colValues := [("A", [a, b, c, d])] }).1.dispatchAction
      (DocAction.RemoveRecord "T" 2))).getColValues cid = none := by
        simp only [TableData.getColValues, TableData.columnsGet, hid2,
          Bool.false_eq_true, if_false]
        rw [show ((((TableData.create "T" [("A", "Numeric")] none).loadData
      { tableId := "T", rowIds := [1, 2, 3, 4],
        colValues := [("A", [a, b, c, d])] }).1.dispatchAction
      (DocAction.RemoveRecord "T" 2))).colArray
        = [ColData.mk "A" "Numeric" (CellValue.num 0) [a, d, c]] from rfl]
        simp [List.find?, hA2]
      rw [heq] at h
      exact absurd h (by simp)

theorem removal_reordering_witness :
    ((((TableData.create "T" [("A", "Numeric")] none).loadData
      { tableId := "T", rowIds := [1, 2, 3, 4],
        colValues := [("A", [CellValue.num 10, CellValue.num 20,
          CellValue.num 30, CellValue.num 40])] }).1.dispatchAction
      (DocAction.RemoveRecord "T" 2)).getColValues "A"
      = some [CellValue.num 10, CellValue.num 40, CellValue.num 30]) ∧
    ([CellValue.num 10, CellValue.num 40, CellValue.num 30] :
      List CellValue).length = 3 :=
  ⟨rfl,
   (removal_reordering (CellValue.num 10) (CellValue.num 20)
     (CellValue.num 30) (CellValue.num 40)).2.2.2.2.2.1 "A" _ rfl⟩

theorem map_const_replicate {α β : Type} (l : List α) (b : β) :
    l.map (fun _ => b) = List.replicate l.length b := by
  induction l with
  | nil => rfl
  | cons x xs ih => simp [List.replicate_succ, ih]

/-- C6.  loadData full-replace semantics: for every table (loaded or not) and
every snapshot, loadData returns exactly the previously resident row ids,
marks the table loaded, replaces the row ids wholesale, rebuilds the
row-id-to-position index from scratch, and replaces every declared column's
values wholesale — with the snapshot array when the column is present, and
with the column's type default repeated once per row when absent. -/
theorem loadData_replace (t : TableData) (a : TableDataAction) :
    ((t.loadData a).2 = t.getRowIds) ∧
    ((t.loadData a).1.isLoaded = true) ∧
    ((t.loadData a).1.getRowIds = a.rowIds) ∧
    ((t.loadData a).1.rowMap = buildRowMap a.rowIds) ∧
    ((t.loadData a).1.colArray = t.colArray.map (fun c =>
      { c with values :=
          match bulkLookup a.colValues c.colId with
          | some vs => vs
          | none => List.replicate a.rowIds.length c.defl })) := by
  refine ⟨rfl, rfl, rfl, rfl, ?_⟩
  simp only [TableData.loadData]
  apply List.map_congr_left
  intro c _
  cases hb : bulkLookup a.colValues c.colId with
  | some vs => simp [hb]
  | none => simp [hb, map_const_replicate]

/-- C8.  Skip policy: receiveAction applies the action and returns true
exactly when the table is loaded or the action is a schema action; a
row-data action received before the table has been loaded is silently
skipped, returning false and leaving the state unchanged. -/
theorem receiveAction_skip_policy (t : TableData) (a : DocAction) :
    ((t.receiveAction a).2 = true ↔
      (t.isLoaded = true ∨ isSchemaAction a = true)) ∧
    ((t.isLoaded = true ∨ isSchemaAction a = true) →
      t.receiveAction a = (t.dispatchAction a, true)) ∧
    (t.isLoaded = false → isSchemaAction a = false →
      t.receiveAction a = (t, false)) := by
  unfold TableData.receiveAction
  by_cases h1 : t.isLoaded = true
  · simp [h1]
  · have h1f : t.isLoaded = false := by simpa using h1
    by_cases h2 : isSchemaAction a = true
    · simp [h1f, h2]
    · have h2f : isSchemaAction a = false := by simpa using h2
      simp [h1f, h2f]

theorem receiveAction_skip_policy_witness :
    (TableData.create "T" [("A", "Numeric")] none).receiveAction
      (DocAction.UpdateRecord "T" 1 []) =
    (TableData.create "T" [("A", "Numeric")] none, false) :=
  (receiveAction_skip_policy (TableData.create "T" [("A", "Numeric")] none)
    (DocAction.UpdateRecord "T" 1 [])).2.2 rfl rfl

/-- C9 (amended).  Not-found behaviour of the query operations: getValue,
getColValues, getRecord and findRow yield explicit absent results
(undefined/none or the sentinel 0) for an absent row or column and never
throw; filterRecords with a properties key naming an absent column returns
without error only when the table has no resident rows — with at least one
resident row, reaching the absent key while scanning (in particular whenever
it is the first key listed) throws a TypeError. -/
theorem query_not_found (t : TableData) (rowId : Nat) (colId : String)
    (v : CellValue) (props : List (String × CellValue)) :
    ((t.columnsGet colId = none ∨ mapGet t.rowMap rowId = none) →
      t.getValue rowId colId = none) ∧
    (t.columnsGet colId = none → t.getColValues colId = none) ∧
    (mapGet t.rowMap rowId = none → t.getRecord rowId = none) ∧
    (t.columnsGet colId = none → t.findRow colId v = 0) ∧
    (t.rowIdCol = [] → t.filterRecords props = Except.ok []) ∧
    (t.rowIdCol ≠ [] → t.columnsGet colId = none →
      t.filterRecords ((colId, v) :: props) = Except.error ()) := by
  refine ⟨?_, ?_, ?_, ?_, ?_, ?_⟩
  · intro h
    rcases h with h | h
    · cases hm : mapGet t.rowMap rowId <;>
        simp [TableData.getValue, h, hm]
    · cases hc : t.columnsGet colId <;>
        simp [TableData.getValue, h, hc]
  · intro h
    simp [TableData.getColValues, h]
  · intro h
    simp [TableData.getRecord, h]
  · intro h
    simp [TableData.findRow, h]
  · intro h
    simp only [TableData.filterRecords, h, List.length_nil, List.range_zero,
      List.foldlM_nil, List.map_nil]
    rfl
  · intro hne hcol
    unfold TableData.filterRecords
    cases hl : t.rowIdCol with
    | nil => exact absurd hl hne
    | cons x xs =>
      simp [hl, List.range_succ_eq_map, List.map_cons, hcol, rowMatches]
      rfl

/-- C9: the claim as frozen is false.  On a one-row table with only column A,
filterRecords with a properties key naming the non-existent column B throws a
TypeError (the source reads `.values` of an undefined column lookup) instead
of returning without error. -/
theorem query_not_found_counterexample :
    (((TableData.create "T" [("A", "Numeric")] none).loadData
      { tableId := "T", rowIds := [1],
        colValues := [("A", [CellValue.num 5])] }).1.filterRecords
      [("B", CellValue.num 1)]) = Except.error () := rfl

theorem query_not_found_witness :
    (((TableData.create "T" [("A", "Numeric")] none).loadData
      { tableId := "T", rowIds := [1],
        colValues := [("A", [CellValue.num 5])] }).1.getValue 99 "A")
      = none :=
  (query_not_found
    ((TableData.create "T" [("A", "Numeric")] none).loadData
      { tableId := "T", rowIds := [1],
        colValues := [("A", [CellValue.num 5])] }).1
    99 "A" CellValue.null []).1 (Or.inr rfl)

/-- C3.  Fetch de-duplication: two fetchData calls on an unloaded table with
the first fetch still unresolved invoke the supplied fetch function exactly
once; both calls return the same still-pending promise; and when the fetch
resolves, its result is passed to loadData (and the stored promise is
cleared). -/
theorem fetch_dedup (t : TableData) (data : TableDataAction)
    (_h : t.isLoaded = false) :
    ((fetchDataModel (initFetch t)).2
      = (fetchDataModel (fetchDataModel (initFetch t)).1).2) ∧
    ((fetchDataModel (initFetch t)).1.invocations = 1) ∧
    ((fetchDataModel (fetchDataModel (initFetch t)).1).1.invocations = 1) ∧
    (promGet (fetchDataModel (fetchDataModel (initFetch t)).1).1.promises
      (fetchDataModel (initFetch t)).2 = some PromiseState.pending) ∧
    ((fetchSuccess (fetchDataModel (fetchDataModel (initFetch t)).1).1
        data).table
      = ((fetchDataModel (fetchDataModel (initFetch t)).1).1.table.loadData
          data).1) ∧
    ((fetchSuccess (fetchDataModel (fetchDataModel (initFetch t)).1).1
        data).fetchPromise = none) :=
  ⟨rfl, rfl, rfl, rfl, rfl, rfl⟩

theorem fetch_dedup_witness :
    ((TableData.create "T" [("A", "Numeric")] none).isLoaded = false) ∧
    (fetchDataModel
      (initFetch (TableData.create "T" [("A", "Numeric")] none))).1.invocations
      = 1 :=
  ⟨rfl,
   (fetch_dedup (TableData.create "T" [("A", "Numeric")] none)
     { tableId := "T", rowIds := [], colValues := [] } rfl).2.1⟩

/-- C10.  A rejected fetch is sticky: once the stored fetch promise has
rejected, every further fetchData call returns that same rejected promise
without invoking the fetch function again, and no sequence of fetch events
can change the table or its loaded flag through fetchData any more. -/
theorem fetch_reject_sticky (m : FetchModel) (p : Nat)
    (h1 : m.fetchPromise = some p)
    (h2 : promGet m.promises p = some PromiseState.rejected) :
    (fetchDataModel m = (m, p)) ∧
    (∀ evs : List FetchEvent, fetchRun m evs = m) ∧
    (∀ evs : List FetchEvent,
      (fetchRun m evs).table.isLoaded = m.table.isLoaded ∧
      (fetchRun m evs).invocations = m.invocations ∧
      (fetchRun m evs).fetchPromise = some p) := by
  have hstep : ∀ ev, fetchStep m ev = m := by
    intro ev
    cases ev with
    | call => simp [fetchStep, fetchDataModel, h1]
    | success data => simp [fetchStep, fetchSuccess, h1, h2]
    | failure => simp [fetchStep, fetchFailure, h1, h2]
  have hrun : ∀ evs, fetchRun m evs = m := by
    intro evs
    induction evs with
    | nil => rfl
    | cons e es ih =>
      show List.foldl fetchStep m (e :: es) = m
      rw [List.foldl_cons, hstep e]
      exact ih
  refine ⟨by simp [fetchDataModel, h1], hrun, ?_⟩
  intro evs
  rw [hrun evs]
  exact ⟨rfl, rfl, h1⟩

theorem fetch_reject_sticky_witness :
    fetchDataModel (fetchStep (fetchStep (initFetch (TableData.create "T"
      [("A", "Numeric")] none)) FetchEvent.call) FetchEvent.failure)
    = (fetchStep (fetchStep (initFetch (TableData.create "T"
      [("A", "Numeric")] none)) FetchEvent.call) FetchEvent.failure, 0) :=
  (fetch_reject_sticky
    (fetchStep (fetchStep (initFetch (TableData.create "T"
      [("A", "Numeric")] none)) FetchEvent.call) FetchEvent.failure)
    0 rfl rfl).1

theorem runProg_inTx (p : TxProg) : ∀ (k : DBHandle),
    k.inTransaction = true →
    (runProg p k).1.inTransaction = true ∧ (runProg p k).1.txLog = k.txLog := by
  induction p with
  | act f =>
    intro k hk
    cases hf : f k.db <;> simp [runProg, hf, hk]
  | seq p q ihp ihq =>
    intro k hk
    have hp := ihp k hk
    cases hr : runProg p k with
    | mk h1 r =>
      rw [hr] at hp
      cases r with
      | ok v =>
        have hq := ihq h1 hp.1
        simp only [runProg, hr]
        exact ⟨hq.1, hq.2.trans hp.2⟩
      | error e =>
        simp only [runProg, hr]
        exact hp
  | tx p ih =>
    intro k hk
    have hred : runProg (TxProg.tx p) k = runProg p k := by
      simp [runProg, execTransactionModel, hk]
    rw [hred]
    exact ih k hk

/-- C7.  Nested-transaction merging: a transaction-runner call made while a
transaction is already open runs its body inline with no new transaction
boundary (so all nested bodies commit or roll back together with the single
outermost transaction); when not nested, it issues exactly one BEGIN, commits
on success keeping the body's store, and on failure rolls the store back to
its pre-transaction state and re-raises the body's original error. -/
theorem execTransaction_nesting (p : TxProg) (h : DBHandle)
    (hfl : h.inTransaction = false) :
    (∀ (q : TxProg) (k : DBHandle), k.inTransaction = true →
      runProg (TxProg.tx q) k = runProg q k) ∧
    (∀ v, (runProg p (beginTx h)).2 = Except.ok v →
      (runProg (TxProg.tx p) h).2 = Except.ok v ∧
      (runProg (TxProg.tx p) h).1.db = (runProg p (beginTx h)).1.db ∧
      (runProg (TxProg.tx p) h).1.txLog = h.txLog ++ ["BEGIN", "COMMIT"] ∧
      (runProg (TxProg.tx p) h).1.inTransaction = false) ∧
    (∀ e, (runProg p (beginTx h)).2 = Except.error e →
      (runProg (TxProg.tx p) h).2 = Except.error e ∧
      (runProg (TxProg.tx p) h).1.db = h.db ∧
      (runProg (TxProg.tx p) h).1.txLog = h.txLog ++ ["BEGIN", "ROLLBACK"] ∧
      (runProg (TxProg.tx p) h).1.inTransaction = false) := by
  have hinline : ∀ (q : TxProg) (k : DBHandle), k.inTransaction = true →
      runProg (TxProg.tx q) k = runProg q k := by
    intro q k hk
    simp [runProg, execTransactionModel, hk]
  have hlog := runProg_inTx p
    { h with txLog := h.txLog ++ ["BEGIN"], inTransaction := true } rfl
  refine ⟨hinline, ?_, ?_⟩
  · intro v hv
    unfold beginTx at hv ⊢
    cases hr : runProg p
        { h with txLog := h.txLog ++ ["BEGIN"], inTransaction := true } with
    | mk h2 r =>
      rw [hr] at hv hlog
      have hr2 : r = Except.ok v := hv
      subst hr2
      have hred : runProg (TxProg.tx p) h = ({ h2 with inTransaction := false, txLog := h2.txLog ++ ["COMMIT"] }, Except.ok v) := by
        simp only [runProg, execTransactionModel, hfl, Bool.false_eq_true,
          if_false, hr]
      rw [hred]
      refine ⟨rfl, rfl, ?_, rfl⟩
      have h2log : h2.txLog = h.txLog ++ ["BEGIN"] := hlog.2
      rw [h2log, List.append_assoc]
      rfl
  · intro e he
    unfold beginTx at he
    cases hr : runProg p
        { h with txLog := h.txLog ++ ["BEGIN"], inTransaction := true } with
    | mk h2 r =>
      rw [hr] at he hlog
      have hr2 : r = Except.error e := he
      subst hr2
      have hred : runProg (TxProg.tx p) h = ({ h2 with inTransaction := false, db := h.db, txLog := h2.txLog ++ ["ROLLBACK"] }, Except.error e) := by
        simp only [runProg, execTransactionModel, hfl, Bool.false_eq_true,
          if_false, hr]
      rw [hred]
      refine ⟨rfl, rfl, ?_, rfl⟩
      have h2log : h2.txLog = h.txLog ++ ["BEGIN"] := hlog.2
      rw [h2log, List.append_assoc]
      rfl

theorem execTransaction_nesting_witness :
    ((runProg (TxProg.tx (TxProg.act (fun st => Except.ok
      { st with content := st.content ++ [("k", "v")] })))
      { db := { userVersion := 0, tables := [], content := [] },
        inTransaction := false, txLog := [],
        migrationBackupPath := none, migrationError := none }).1.txLog
      = ["BEGIN", "COMMIT"]) :=
  ((execTransaction_nesting
    (TxProg.act (fun st => Except.ok
      { st with content := st.content ++ [("k", "v")] }))
    { db := { userVersion := 0, tables := [], content := [] },
      inTransaction := false, txLog := [],
      migrationBackupPath := none, migrationError := none }
    rfl).2.1 () rfl).2.2.1

theorem le_foldr_max (fs : List Nat) (x : Nat) (h : x ∈ fs) :
    x ≤ fs.foldr max 0 := by
  induction fs with
  | nil => simp at h
  | cons a t ih =>
    rcases List.mem_cons.mp h with rfl | hm
    · exact Nat.le_max_left x (t.foldr max 0)
    · exact Nat.le_trans (ih hm) (Nat.le_max_right a (t.foldr max 0))

theorem freshName_not_mem (fs : List Nat) : freshName fs ∉ fs := by
  intro h
  have := le_foldr_max fs (freshName fs) h
  unfold freshName at this
  omega

theorem erase_append_singleton (fs : List Nat) (b : Nat) (h : b ∉ fs) :
    (fs ++ [b]).erase b = fs := by
  induction fs with
  | nil => simp
  | cons a t ih =>
    have hab : a ≠ b := fun hh => h (hh ▸ List.mem_cons_self a t)
    have hbt : b ∉ t := fun hh => h (List.mem_cons_of_mem a hh)
    rw [List.cons_append, List.erase_cons_tail, ih hbt]
    simp [hab]

/-- C2.  Migration failure atomicity: opening an existing (non-empty)
read-write store whose stored version is behind the migration-list length,
when one of the pending migrations throws, rolls the transaction back so the
stored schema version and data remain at their pre-migration values, deletes
the backup file created for this attempt (the file set is unchanged), records
the decorated error in the handle's migrationError field, and still returns
an open handle instead of raising. -/
theorem migration_failure_atomic (fs : List Nat) (st : DBState)
    (schema : SchemaInfo) (mode : OpenMode) (e : String)
    (hver : st.userVersion < schema.migrations.length)
    (hnonempty : st.tables ≠ [])
    (hmode : mode = OpenMode.OPEN_CREATE ∨ mode = OpenMode.OPEN_EXISTING)
    (hfail : applyMigrations (schema.migrations.drop st.userVersion) st
      = Except.error e) :
    ((openDBModel fs st schema mode).1 = fs) ∧
    (∃ hdl, (openDBModel fs st schema mode).2 = Except.ok hdl ∧
      hdl.db = st ∧
      hdl.migrationError
        = some (migErrMsg schema.migrations.length e) ∧
      hdl.migrationBackupPath = none) := by
  have hempty : st.tables.isEmpty = false := by
    cases hts : st.tables with
    | nil => exact absurd hts hnonempty
    | cons a l => rfl
  have hexcl : (mode == OpenMode.CREATE_EXCL) = false := by
    rcases hmode with rfl | rfl <;> rfl
  have hro : (mode == OpenMode.OPEN_READONLY) = false := by
    rcases hmode with rfl | rfl <;> rfl
  have hnotahead : ¬ (schema.migrations.length < st.userVersion) := by omega
  have hfresh := freshName_not_mem fs
  have herase := erase_append_singleton fs (freshName fs) hfresh
  unfold openDBModel
  rw [hempty]
  simp only [Bool.and_false, Bool.false_eq_true, if_false, hexcl, hro]
  unfold migrateModel
  rw [if_neg hnotahead, if_pos hver]
  unfold execTransactionModel
  simp only [Bool.false_eq_true, if_false]
  unfold migrationsBody
  simp only [hfail]
  simp only [herase]
  exact ⟨trivial, _, rfl, rfl, rfl, rfl⟩

theorem migration_failure_atomic_witness :
    (openDBModel [7]
      { userVersion := 1, tables := ["Foo"], content := [("Foo", "a")] }
      { create := fun s => Except.ok s,
        migrations := [fun s => Except.ok { s with tables := s.tables ++ ["Bar"] },
          fun _ => Except.error "boom", fun s => Except.ok s] }
      OpenMode.OPEN_EXISTING).1 = [7] :=
  (migration_failure_atomic [7]
    { userVersion := 1, tables := ["Foo"], content := [("Foo", "a")] }
    { create := fun s => Except.ok s,
      migrations := [fun s => Except.ok { s with tables := s.tables ++ ["Bar"] },
        fun _ => Except.error "boom", fun s => Except.ok s] }
    OpenMode.OPEN_EXISTING "boom"
    (by decide) (by decide) (Or.inr rfl) rfl).1

theorem find?_map_values (l : List ColData) (cid : String)
    (F : ColData → ColData) (hF : ∀ c, (F c).colId = c.colId)
    (hV : ∀ c, l.find? (fun c => c.colId == cid) = some c →
      (F c).values = c.values) :
    ((l.map F).find? (fun c => c.colId == cid)).map (fun c => c.values)
      = (l.find? (fun c => c.colId == cid)).map (fun c => c.values) := by
  induction l with
  | nil => rfl
  | cons a l ih =>
    by_cases ha : a.colId = cid
    · have hpa : ((F a).colId == cid) = true := by simp [hF a, ha]
      have hpa2 : (a.colId == cid) = true := by simp [ha]
      rw [List.map_cons,
          List.find?_cons_of_pos (p := fun c : ColData => c.colId == cid) _ hpa,
          List.find?_cons_of_pos (p := fun c : ColData => c.colId == cid) _ hpa2]
      have := hV a
        (by rw [List.find?_cons_of_pos (p := fun c : ColData => c.colId == cid) _ hpa2])
      simp [this]
    · have hpa : ¬ ((F a).colId == cid) = true := by simp [hF a, ha]
      have hpa2 : ¬ ((a.colId == cid) = true) := by simp [ha]
      rw [List.map_cons,
          List.find?_cons_of_neg (p := fun c : ColData => c.colId == cid) _ hpa,
          List.find?_cons_of_neg (p := fun c : ColData => c.colId == cid) _ hpa2]
      exact ih (fun c hc => hV c
        (by rw [List.find?_cons_of_neg (p := fun c : ColData => c.colId == cid) _ hpa2,
                hc]))

/-- C5.  Round-trip: for a loaded table with no declared column named id
(the id key is reserved for the synthetic column), feeding
getTableDataAction() to loadData on a fresh table of the same schema
reproduces the same row ids and the same value sequence for every column id;
the value map of the action omits the synthetic id column, and the row ids
are carried separately in the action. -/
theorem roundtrip (t : TableData)
    (hid : ∀ c, c ∈ t.colArray → c.colId ≠ "id") :
    (((TableData.create t.tableId
        (t.colArray.map (fun c => (c.colId, c.type))) none).loadData
        t.getTableDataAction).1.getRowIds = t.getRowIds) ∧
    (∀ cid, ((TableData.create t.tableId
        (t.colArray.map (fun c => (c.colId, c.type))) none).loadData
        t.getTableDataAction).1.getColValues cid = t.getColValues cid) ∧
    (∀ p, p ∈ t.getTableDataAction.colValues → p.1 ≠ "id") ∧
    (t.getTableDataAction.rowIds = t.getRowIds) := by
  have hfilter : (t.getColIds).filter (fun cid => cid != "id")
      = t.colArray.map (fun c => c.colId) := by
    unfold TableData.getColIds
    rw [List.filter_append]
    have hf1 : (t.colArray.map (fun c => c.colId)).filter
        (fun cid => cid != "id") = t.colArray.map (fun c => c.colId) := by
      apply List.filter_eq_self.mpr
      intro x hx
      simp only [List.mem_map] at hx
      obtain ⟨c, hc, rfl⟩ := hx
      simpa using hid c hc
    have hf2 : (["id"] : List String).filter (fun cid => cid != "id") = [] := rfl
    rw [hf1, hf2, List.append_nil]
  have hA : t.getTableDataAction.colValues
      = t.colArray.map
          (fun c => (c.colId, (t.getColValues c.colId).getD [])) := by
    unfold TableData.getTableDataAction
    rw [hfilter, List.map_map]
    rfl
  refine ⟨rfl, ?_, ?_, rfl⟩
  · intro cid
    by_cases hcid : cid = "id"
    · subst hcid
      rfl
    · have hbeq : (cid == "id") = false := by simpa using hcid
      unfold TableData.getColValues TableData.columnsGet
      rw [hbeq]
      simp only [Bool.false_eq_true, if_false]
      rw [show (((TableData.create t.tableId
          (t.colArray.map (fun c => (c.colId, c.type))) none).loadData
          t.getTableDataAction).1.colArray)
        = ((t.colArray.map (fun c => (c.colId, c.type))).map
            (fun p => ColData.mk p.1 p.2 (getDefaultForType p.2) [])).map
            (fun c => ColData.mk c.colId c.type c.defl
              (match bulkLookup t.getTableDataAction.colValues c.colId with
               | some vs => vs
               | none => t.getTableDataAction.rowIds.map (fun _ => c.defl)))
        from rfl]
      rw [List.map_map, List.map_map]
      apply find?_map_values
      · intro c
        rfl
      · intro c hfind
        have hcc : c.colId = cid := by
          have hp := List.find?_some hfind
          simpa using hp
        have hgc : t.getColValues cid = some c.values := by
          unfold TableData.getColValues TableData.columnsGet
          rw [hbeq]
          simp only [Bool.false_eq_true, if_false]
          rw [hfind]
          rfl
        have hbl : bulkLookup t.getTableDataAction.colValues cid
            = some c.values := by
          rw [hA]
          unfold bulkLookup
          rw [List.find?_map]
          rw [show ((fun p => p.1 == cid) ∘
              (fun c => (c.colId, (t.getColValues c.colId).getD [])))
            = (fun c : ColData => c.colId == cid) from rfl]
          rw [hfind]
          simp only [Option.map_map]
          simp only [Option.map_some']
          rw [Function.comp_apply]
          rw [hcc, hgc]
          rfl
        show (match bulkLookup t.getTableDataAction.colValues c.colId with
              | some vs => vs
              | none => t.getTableDataAction.rowIds.map
                  (fun _ => getDefaultForType c.type))
            = c.values
        rw [hcc, hbl]
  · intro p hp
    rw [hA] at hp
    simp only [List.mem_map] at hp
    obtain ⟨c, hc, rfl⟩ := hp
    exact hid c hc

theorem roundtrip_witness :
    ((TableData.create
      (((TableData.create "T" [("A", "Numeric")] none).loadData
        { tableId := "T", rowIds := [1, 2],
          colValues := [("A", [CellValue.num 10, CellValue.num 20])] }).1.tableId)
      ((((TableData.create "T" [("A", "Numeric")] none).loadData
        { tableId := "T", rowIds := [1, 2],
          colValues := [("A", [CellValue.num 10, CellValue.num 20])] }).1.colArray).map
        (fun c => (c.colId, c.type)))
      none).loadData
      (((TableData.create "T" [("A", "Numeric")] none).loadData
        { tableId := "T", rowIds := [1, 2],
          colValues := [("A", [CellValue.num 10, CellValue.num 20])] }).1.getTableDataAction)).1.getRowIds
    = (((TableData.create "T" [("A", "Numeric")] none).loadData
        { tableId := "T", rowIds := [1, 2],
          colValues := [("A", [CellValue.num 10, CellValue.num 20])] }).1.getRowIds) :=
  (roundtrip
    (((TableData.create "T" [("A", "Numeric")] none).loadData
      { tableId := "T", rowIds := [1, 2],
        colValues := [("A", [CellValue.num 10, CellValue.num 20])] }).1)
    (by decide)).1
